import Mathlib

/-!
Verification development for the text-search library of this repository:

* `IterFilter` — the in-memory rule-based fuzzy matcher (src/src/search.py,
  class `IterFilter`: `filter` and `_filter_item`);
* `FTSFilter` — the indexed full-text engine (src/src/search.py, class
  `FTSFilter`: `filter`, `_memoize_database`, `make_rank_func`; the
  module-level `filter` of src/src/fts.py is a near-duplicate);
* the binary relevance decoder `make_rank_func`.

Embedding conventions:

* The code is Python 2 (`unicode` builtin in src/src/text.py, bytes-mode csv
  in src/src/fts.py, no `from __future__ import division` anywhere), so
  `len(value) / len(query)` on ints is FLOOR division: it is embedded as
  `Nat` division.  Float scores are embedded as exact rationals `ℚ`.
* The sqlite FTS index provider is out of scope per the specification and is
  modelled as an opaque function from the SQL match pattern to the returned
  rows.  Likewise the diacritic transliteration table of src/src/text.py is
  modelled as an opaque `fold : String → String` parameter; the surrounding
  logic (`isascii` check, skip-if-ASCII) is embedded concretely.
* Python dicts are modelled as association lists with overwrite-on-assign;
  every use in the source sorts the keys before reading the dict, so the
  iteration order of the model is immaterial.
-/

set_option maxHeartbeats 1000000

/-! ## Generic finite-map and sorting helpers -/

/-- Association-list lookup (models reading a Python dict). -/
def lookupA {K V : Type} [DecidableEq K] : List (K × V) → K → Option V
  | [], _ => none
  | (k', v) :: es, k => if k' = k then some v else lookupA es k

/-- Python dict assignment `m[k] = v`: the new binding replaces any previous
binding of `k`.  Binding order is irrelevant downstream (keys are always
sorted before use), so the new binding is simply put in front. -/
def upsert {K V : Type} [DecidableEq K] (m : List (K × V)) (k : K) (v : V) :
    List (K × V) :=
  (k, v) :: m.filter (fun e => decide (e.1 ≠ k))

theorem lookupA_upsert_self {K V : Type} [DecidableEq K]
    (m : List (K × V)) (k : K) (v : V) : lookupA (upsert m k v) k = some v := by
  simp [upsert, lookupA]

theorem lookupA_filter_ne {K V : Type} [DecidableEq K]
    (m : List (K × V)) (k k' : K) (h : k' ≠ k) :
    lookupA (m.filter (fun e => decide (e.1 ≠ k))) k' = lookupA m k' := by
  induction m with
  | nil => rfl
  | cons e es ih =>
    obtain ⟨ek, ev⟩ := e
    rw [List.filter_cons]
    by_cases he : ek = k
    · have hp : (decide ((ek, ev).1 ≠ k)) = false := by simp [he]
      rw [hp]
      have hne : ¬ ek = k' := fun hc => h (he ▸ hc.symm)
      simp only [Bool.false_eq_true, if_false]
      rw [ih]
      conv_rhs => rw [lookupA, if_neg hne]
    · have hp : (decide ((ek, ev).1 ≠ k)) = true := by simp [he]
      rw [hp]
      simp only [if_true]
      by_cases hek : ek = k'
      · rw [lookupA, if_pos hek]
        conv_rhs => rw [lookupA, if_pos hek]
      · rw [lookupA, if_neg hek, ih]
        conv_rhs => rw [lookupA, if_neg hek]

theorem lookupA_upsert_ne {K V : Type} [DecidableEq K]
    (m : List (K × V)) (k k' : K) (v : V) (h : k' ≠ k) :
    lookupA (upsert m k v) k' = lookupA m k' := by
  have : k ≠ k' := fun hc => h hc.symm
  simp only [upsert, lookupA, if_neg this]
  exact lookupA_filter_ne m k k' h

theorem mem_upsert {K V : Type} [DecidableEq K]
    {m : List (K × V)} {k : K} {v : V} {e : K × V} (h : e ∈ upsert m k v) :
    e = (k, v) ∨ e ∈ m := by
  rcases List.mem_cons.1 h with h' | h'
  · exact Or.inl h'
  · exact Or.inr (List.mem_of_mem_filter h')

theorem lookupA_mem {K V : Type} [DecidableEq K]
    {m : List (K × V)} {k : K} {v : V} (h : lookupA m k = some v) : (k, v) ∈ m := by
  induction m with
  | nil => simp [lookupA] at h
  | cons e es ih =>
    cases e with
    | mk ek ev =>
      by_cases hek : ek = k
      · subst hek
        simp [lookupA] at h
        subst h
        exact List.mem_cons_self _ _
      · simp [lookupA, hek] at h
        exact List.mem_cons_of_mem _ (ih h)

theorem lookupA_isSome_of_mem_keys {K V : Type} [DecidableEq K]
    {m : List (K × V)} {k : K} (h : k ∈ m.map (·.1)) : (lookupA m k).isSome := by
  induction m with
  | nil => simp at h
  | cons e es ih =>
    cases e with
    | mk ek ev =>
      by_cases hek : ek = k
      · simp [lookupA, hek]
      · simp [lookupA, hek]
        simp at h
        rcases h with h | h
        · exact absurd h.symm hek
        · exact ih (by simpa using h)

/-- Insertion into a sorted list, comparator as a Bool function. -/
def insertLe {K : Type} (le : K → K → Bool) (x : K) : List K → List K
  | [] => [x]
  | y :: ys => if le x y then x :: y :: ys else y :: insertLe le x ys

/-- Insertion sort; models Python's `sorted` (the keys being sorted are
always pairwise distinct, so any stable comparison sort computes the same
list). -/
def sortLe {K : Type} (le : K → K → Bool) : List K → List K
  | [] => []
  | x :: xs => insertLe le x (sortLe le xs)

theorem mem_insertLe {K : Type} (le : K → K → Bool) (x z : K) (l : List K) :
    z ∈ insertLe le x l ↔ z = x ∨ z ∈ l := by
  induction l with
  | nil => simp [insertLe]
  | cons y ys ih =>
    by_cases h : le x y
    · simp [insertLe, h]
    · simp [insertLe, h, ih]
      tauto

theorem mem_sortLe {K : Type} (le : K → K → Bool) (z : K) (l : List K) :
    z ∈ sortLe le l ↔ z ∈ l := by
  induction l with
  | nil => simp [sortLe]
  | cons x xs ih => simp [sortLe, mem_insertLe, ih]

theorem pairwise_insertLe {K : Type} (le : K → K → Bool)
    (htot : ∀ a b, le a b = true ∨ le b a = true)
    (htr : ∀ a b c, le a b = true → le b c = true → le a c = true)
    (x : K) (l : List K) (h : l.Pairwise (fun a b => le a b = true)) :
    (insertLe le x l).Pairwise (fun a b => le a b = true) := by
  induction l with
  | nil => simp [insertLe]
  | cons y ys ih =>
    rcases h with _ | ⟨hy, hys⟩
    by_cases hxy : le x y = true
    · simp only [insertLe, if_pos hxy]
      refine List.Pairwise.cons ?_ (List.Pairwise.cons hy hys)
      intro z hz
      rcases List.mem_cons.1 hz with hz | hz
      · subst hz; exact hxy
      · exact htr x y z hxy (hy z hz)
    · simp only [insertLe, if_neg hxy]
      refine List.Pairwise.cons ?_ (ih hys)
      intro z hz
      rcases (mem_insertLe le x z ys).1 hz with hz | hz
      · rw [hz]
        rcases htot x y with h' | h'
        · exact absurd h' hxy
        · exact h'
      · exact hy z hz

theorem pairwise_sortLe {K : Type} (le : K → K → Bool)
    (htot : ∀ a b, le a b = true ∨ le b a = true)
    (htr : ∀ a b c, le a b = true → le b c = true → le a c = true)
    (l : List K) : (sortLe le l).Pairwise (fun a b => le a b = true) := by
  induction l with
  | nil => simp [sortLe]
  | cons x xs ih => exact pairwise_insertLe le htot htr x (sortLe le xs) ih

/-- Python `sorted(keys, reverse=flag)`: ascending for `reverse=False`,
descending for `reverse=True` (flipped comparator; stable, which matters
only for duplicate keys, and dict keys are distinct). -/
def pySorted {K : Type} (le : K → K → Bool) (reverse : Bool) (ks : List K) :
    List K :=
  if reverse then sortLe (fun a b => le b a) ks else sortLe le ks

theorem mem_pySorted {K : Type} (le : K → K → Bool) (r : Bool) (z : K)
    (ks : List K) : z ∈ pySorted le r ks ↔ z ∈ ks := by
  cases r <;> simp [pySorted, mem_sortLe]

/-- Relating `filterMap` over related keys to pairwise-related results. -/
theorem pairwise_filterMap_rel {K V : Type} (g : K → Option V)
    (R : K → K → Prop) (S : V → V → Prop)
    (h : ∀ a b x y, R a b → g a = some x → g b = some y → S x y) :
    ∀ l : List K, l.Pairwise R → (l.filterMap g).Pairwise S := by
  intro l hl
  induction l with
  | nil => simp
  | cons a as ih =>
    rcases hl with _ | ⟨ha, has⟩
    cases hga : g a with
    | none => simpa [List.filterMap_cons, hga] using ih has
    | some x =>
      simp only [List.filterMap_cons, hga]
      refine List.Pairwise.cons ?_ (ih has)
      intro y hy
      rcases List.mem_filterMap.1 hy with ⟨b, hb, hgb⟩
      exact h a b x y (ha b hb) hga hgb

/-! ## Character and string helpers (Python string operations) -/

/-- Python 2 whitespace stripped by `unicode.strip()` (ASCII part). -/
def isPyWS (c : Char) : Bool :=
  c == ' ' || c == '\t' || c == '\n' || c == '\r' ||
  c == Char.ofNat 11 || c == Char.ofNat 12

/-- `s.strip()` on the character list. -/
def trimL (l : List Char) : List Char :=
  ((l.dropWhile isPyWS).reverse.dropWhile isPyWS).reverse

/-- `s.strip()`. -/
def trimStr (s : String) : String := String.mk (trimL s.data)

/-- `s.lower()` on the character list (ASCII case mapping; the repository's
concrete data and queries are compared ASCII-wise). -/
def lowerL (l : List Char) : List Char := l.map Char.toLower

/-- `s.lower()`. -/
def lowerStr (s : String) : String := String.mk (lowerL s.data)

/-- `query.split(' ')`: split on every single space, keeping empty parts;
`''.split(' ') == ['']`. -/
def splitSpace : List Char → List (List Char)
  | [] => [[]]
  | c :: cs =>
    if c = ' ' then [] :: splitSpace cs
    else
      match splitSpace cs with
      | [] => [[c]]
      | h :: t => (c :: h) :: t

/-- `words = [s.strip() for s in query.split(' ')]` (src/src/search.py
lines 75 and 285). -/
def wordsOf (query : String) : List String :=
  (splitSpace query.data).map (fun w => String.mk (trimL w))

/-- `text.isascii` (src/src/text.py): true iff every character encodes in
ASCII, i.e. has code point below 128. -/
def isAsciiL (l : List Char) : Bool := l.all (fun c => c.toNat < 128)

/-- `text.fold_to_ascii` (src/src/text.py): ASCII input is returned
unchanged; otherwise the transliteration table plus NFKD normalization are
applied.  The table and `unicodedata` are out-of-scope collaborators and are
abstracted as the parameter `fold`. -/
def foldToAscii (fold : String → String) (s : String) : String :=
  if isAsciiL s.data then s else fold s

/-- `needle` is a prefix of `hay` (Python `hay.startswith(needle)` with the
arguments in the order needle-first). -/
def leadsWith : List Char → List Char → Bool
  | [], _ => true
  | _ :: _, [] => false
  | a :: as, b :: bs => a == b && leadsWith as bs

/-- Python `needle in hay` substring containment. -/
def hasSub (n : List Char) : List Char → Bool
  | [] => n.isEmpty
  | c :: hs => leadsWith n (c :: hs) || hasSub n hs

/-- Characters counted by the `INITIALS` anchor set of src/src/search.py
line 17: `string.ascii_uppercase + string.digits`. -/
def isInitialChar (c : Char) : Bool :=
  (decide ('A' ≤ c) && decide (c ≤ 'Z')) || (decide ('0' ≤ c) && decide (c ≤ '9'))

/-- Alphanumeric per the delimiter regex `[^a-zA-Z0-9]` of src/src/search.py
line 20. -/
def isAlnumAscii (c : Char) : Bool :=
  (decide ('a' ≤ c) && decide (c ≤ 'z')) ||
  (decide ('A' ≤ c) && decide (c ≤ 'Z')) ||
  (decide ('0' ≤ c) && decide (c ≤ '9'))

/-- `re.compile('[^a-zA-Z0-9]').split(value)`: split at every single
non-alphanumeric character (empty segments between adjacent delimiters are
kept, exactly as `re.split` with a one-character pattern does). -/
def splitOnDelimiters : List Char → List (List Char)
  | [] => [[]]
  | c :: cs =>
    if isAlnumAscii c then
      match splitOnDelimiters cs with
      | [] => [[c]]
      | h :: t => (c :: h) :: t
    else [] :: splitOnDelimiters cs

/-- Exclusive end position of the match of the `MATCH_ALLCHARS` pattern
`[^c1]*c1[^c2]*c2...` (built in `IterFilter._search_for_query`,
src/src/search.py lines 424-429) searched in `v` with `re.IGNORECASE`,
assuming the attempt starts at offset `i`.  Each `[^c]*` is forced to stop
at the first case-insensitive occurrence of `c`, so the pattern matches the
earliest possible embedding of the query characters; `re.search` finds a
match exactly when the query is a case-insensitive subsequence of the value,
and that match always begins at offset 0. -/
def greedyEnd : List Char → List Char → Nat → Option Nat
  | [], _, i => some i
  | _ :: _, [], _ => none
  | c :: cs, d :: ds, i =>
    if d.toLower == c then greedyEnd cs ds (i + 1)
    else greedyEnd (c :: cs) ds (i + 1)

/-! ## Rule-based matcher `IterFilter` (src/src/search.py lines 177-432) -/

/-- Match filter flags, src/src/search.py lines 22-31. -/
def MATCH_STARTSWITH : Nat := 1

def MATCH_CAPITALS : Nat := 2

def MATCH_ATOM : Nat := 4

def MATCH_INITIALS_STARTSWITH : Nat := 8

def MATCH_INITIALS_CONTAIN : Nat := 16

def MATCH_INITIALS : Nat := 24

def MATCH_SUBSTRING : Nat := 32

def MATCH_ALLCHARS : Nat := 64

def MATCH_ALL : Nat := 127

/-- Bit test `match_on & FLAG` used truthily in the source. -/
def hasFlag (matchOn flag : Nat) : Bool := matchOn &&& flag != 0

/-- One `if not score:`-guarded rule block of `_filter_item`: when the
running score is still zero and the rule condition holds, the rule's score
and label replace the running pair, otherwise the pair is kept.  (A nonzero
running score — even a negative one — is truthy in Python and skips the
block.) -/
def stageIf (prev : ℚ × Option Nat) (c : Bool) (v : ℚ × Option Nat) :
    ℚ × Option Nat :=
  if prev.1 = 0 then (if c then v else prev) else prev

/-- An `if .. elif ..` rule block guarded by `if not score:` (the
`MATCH_INITIALS_STARTSWITH` / `MATCH_INITIALS_CONTAIN` pair,
src/src/search.py lines 382-397). -/
def stageIf2 (prev : ℚ × Option Nat) (c1 : Bool) (v1 : ℚ × Option Nat)
    (c2 : Bool) (v2 : ℚ × Option Nat) : ℚ × Option Nat :=
  if prev.1 = 0 then (if c1 then v1 else if c2 then v2 else prev) else prev

/-- The `MATCH_ALLCHARS` block's control flow: guarded by `if not score:`
and by the flag, and only effective when the pattern search returns a
match. -/
def stageOpt (prev : ℚ × Option Nat) (c : Bool)
    (o : Option (ℚ × Option Nat)) : ℚ × Option Nat :=
  if prev.1 = 0 then
    (if c then (match o with | some v => v | none => prev) else prev)
  else prev

/-- The `MATCH_ALLCHARS` block (src/src/search.py lines 405-414): the
subsequence pattern's match always starts at offset 0 (see `greedyEnd`), so
`100.0 / ((1 + match.start()) * (match.end() - match.start() + 1))`
is `100 / (end + 1)`. -/
def allcharsResult (q v : List Char) : Option (ℚ × Option Nat) :=
  (greedyEnd q v 0).map
    (fun e => ((100 : ℚ) / ((e : ℚ) + 1), some MATCH_ALLCHARS))

/-- The rule cascade of `IterFilter._filter_item` (src/src/search.py lines
338-418) applied to the already-folded `value` and the already-lowercased
word `q`.  `len(value) / len(query)` is Python 2 integer division on ints,
hence `Nat` division here.  Returns `(score, rule)`; per the source's final
`if score > 0` the result is `(0, none)` unless the score is positive. -/
def filterCascade (value q : String) (matchOn : Nat) : ℚ × Option Nat :=
  let vl := lowerL value.data
  if (q.data.all (fun c => vl.contains c)) = false then (0, none)
  else
    let s1 : ℚ × Option Nat :=
      if hasFlag matchOn MATCH_STARTSWITH && leadsWith q.data vl then
        ((100 : ℚ) - ((value.data.length / q.data.length : Nat) : ℚ),
         some MATCH_STARTSWITH)
      else (0, none)
    let caps := value.data.filter isInitialChar
    let s2 := stageIf s1
      (hasFlag matchOn MATCH_CAPITALS && leadsWith q.data (lowerL caps))
      ((100 : ℚ) - ((caps.length / q.data.length : Nat) : ℚ),
       some MATCH_CAPITALS)
    let atoms := (splitOnDelimiters value.data).map lowerL
    let initialsL := atoms.filterMap List.head?
    let s3 := stageIf s2
      (hasFlag matchOn MATCH_ATOM && atoms.contains q.data)
      ((100 : ℚ) - ((value.data.length / q.data.length : Nat) : ℚ),
       some MATCH_ATOM)
    let s4 := stageIf2 s3
      (hasFlag matchOn MATCH_INITIALS_STARTSWITH && leadsWith q.data initialsL)
      ((100 : ℚ) - ((initialsL.length / q.data.length : Nat) : ℚ),
       some MATCH_INITIALS_STARTSWITH)
      (hasFlag matchOn MATCH_INITIALS_CONTAIN && hasSub q.data initialsL)
      ((95 : ℚ) - ((initialsL.length / q.data.length : Nat) : ℚ),
       some MATCH_INITIALS_CONTAIN)
    let s5 := stageIf s4
      (hasFlag matchOn MATCH_SUBSTRING && hasSub q.data vl)
      ((90 : ℚ) - ((value.data.length / q.data.length : Nat) : ℚ),
       some MATCH_SUBSTRING)
    let s6 := stageOpt s5 (hasFlag matchOn MATCH_ALLCHARS)
      (allcharsResult q.data value.data)
    if 0 < s6.1 then s6 else (0, none)

/-- `IterFilter._filter_item` (src/src/search.py lines 325-418): lowercase
the word, disable folding for non-ASCII words, optionally fold the value,
then run the cascade (the character pre-filter is the cascade's first
test). -/
def filterItem (fold : String → String) (value query : String)
    (matchOn : Nat) (foldDiacritics : Bool) : ℚ × Option Nat :=
  let q := lowerStr query
  let fd := if isAsciiL q.data then foldDiacritics else false
  let v := if fd then foldToAscii fold value else value
  filterCascade v q matchOn

/-- One iteration of the per-word loop of `IterFilter.filter`
(src/src/search.py lines 289-297): empty words are skipped; otherwise the
word's score is added, the rule label is overwritten, and a zero word score
marks the item as skipped. -/
def wordStep (fold : String → String) (matchOn : Nat) (fd : Bool)
    (value : String) (acc : ℚ × Option Nat × Bool) (word : String) :
    ℚ × Option Nat × Bool :=
  if word = "" then acc
  else
    let sr := filterItem fold value word matchOn fd
    (acc.1 + sr.1, sr.2, acc.2.2 || decide (sr.1 = 0))

/-- The full per-word loop: returns `(score, rule, skip)`. -/
def scoreItem (fold : String → String) (matchOn : Nat) (fd : Bool)
    (value : String) (words : List String) : ℚ × Option Nat × Bool :=
  words.foldl (wordStep fold matchOn fd value) (0, none, false)

/-- The per-item outcome of `IterFilter.filter` (src/src/search.py lines
286-307): `none` when the item is skipped (empty key, a failed word, or
zero total score), otherwise `some (total score, rule of the last non-empty
word)`. -/
def itemResult (fold : String → String) (matchOn : Nat) (fd : Bool)
    (words : List String) (value : String) : Option (ℚ × Option Nat) :=
  if value = "" then none
  else
    let t := scoreItem fold matchOn fd value words
    if t.2.2 then none
    else if t.1 = 0 then none
    else some (t.1, t.2.1)

/-- One iteration of the per-item loop of `IterFilter.filter`
(src/src/search.py lines 282-307): a matching item is written into the
results dict under the key `(100.0 / score, value.lower(), score)`. -/
def iterStep {α : Type} (fold : String → String) (matchOn : Nat) (fd : Bool)
    (words : List String) (key : α → String)
    (m : List ((ℚ × String × ℚ) × (α × ℚ × Option Nat))) (x : α) :
    List ((ℚ × String × ℚ) × (α × ℚ × Option Nat)) :=
  let value := trimStr (key x)
  match itemResult fold matchOn fd words value with
  | none => m
  | some (s, r) => upsert m (100 / s, lowerStr value, s) (x, s, r)

/-- The results dict of `IterFilter.filter` (src/src/search.py lines
280-307), keyed by `(100.0 / score, value.lower(), score)`. -/
def buildResults {α : Type} (fold : String → String) (matchOn : Nat)
    (fd : Bool) (words : List String) (key : α → String) (data : List α) :
    List ((ℚ × String × ℚ) × (α × ℚ × Option Nat)) :=
  data.foldl (iterStep fold matchOn fd words key) []

/-- Lexicographic comparison of Python strings (code-point order). -/
def strLtB : List Char → List Char → Bool
  | [], [] => false
  | [], _ :: _ => true
  | _ :: _, [] => false
  | a :: as, b :: bs =>
    if a.toNat < b.toNat then true
    else if b.toNat < a.toNat then false
    else strLtB as bs

/-- Python tuple comparison on the sort keys `(100.0/score, value.lower(),
score)`. -/
def sKeyLe (a b : ℚ × String × ℚ) : Prop :=
  a.1 < b.1 ∨
    (a.1 = b.1 ∧
      (strLtB a.2.1.data b.2.1.data = true ∨ (a.2.1 = b.2.1 ∧ a.2.2 ≤ b.2.2)))

instance (a b : ℚ × String × ℚ) : Decidable (sKeyLe a b) := by
  unfold sKeyLe; infer_instance

def sKeyLeB (a b : ℚ × String × ℚ) : Bool := decide (sKeyLe a b)

/-- The tail of `IterFilter.filter` (src/src/search.py lines 313-317): the
`max_results` truncation is applied FIRST, then the `min_score` filter
(strict greater-than); both are skipped when the respective option is 0. -/
def postProcess {α : Type} (maxResults : Nat) (minScore : ℚ)
    (rs : List (α × ℚ × Option Nat)) : List (α × ℚ × Option Nat) :=
  let rs1 :=
    if maxResults ≠ 0 ∧ rs.length > maxResults then rs.take maxResults else rs
  if minScore ≠ 0 then rs1.filter (fun r => decide (minScore < r.2.1)) else rs1

/-- `IterFilter.filter` (src/src/search.py lines 182-323) with
`include_score=True`: build the results dict, sort its keys
(`reverse=ascending`, default `False`), read the dict back in key order,
truncate, then min-score filter. -/
def iterFilterScored {α : Type} (fold : String → String) (query : String)
    (data : List α) (key : α → String) (ascending : Bool) (minScore : ℚ)
    (maxResults : Nat) (matchOn : Nat) (foldDiacritics : Bool) :
    List (α × ℚ × Option Nat) :=
  let words := wordsOf (trimStr query)
  let m := buildResults fold matchOn foldDiacritics words key data
  let keys := pySorted sKeyLeB ascending (m.map (·.1))
  let res := keys.filterMap (lookupA m)
  postProcess maxResults minScore res

/-- `IterFilter.filter` with `include_score=False`: the same list projected
to bare items (src/src/search.py lines 319-323). -/
def iterFilterItems {α : Type} (fold : String → String) (query : String)
    (data : List α) (key : α → String) (ascending : Bool) (minScore : ℚ)
    (maxResults : Nat) (matchOn : Nat) (foldDiacritics : Bool) : List α :=
  (iterFilterScored fold query data key ascending minScore maxResults matchOn
    foldDiacritics).map (·.1)

/-! ## Indexed engine `FTSFilter` (src/src/search.py lines 40-174)

The sqlite FTS index is an out-of-scope collaborator: it is modelled as an
opaque `provider` mapping the SQL match pattern built by `filter` to the
returned rows `(id, score, data)` (the nested SELECT already applies the
rank function and returns the score column). -/

/-- Python tuple comparison on the FTS sort keys `(score, id)`. -/
def fKeyLe (a b : ℚ × Nat) : Prop := a.1 < b.1 ∨ (a.1 = b.1 ∧ a.2 ≤ b.2)

instance (a b : ℚ × Nat) : Decidable (fKeyLe a b) := by
  unfold fKeyLe; infer_instance

def fKeyLeB (a b : ℚ × Nat) : Bool := decide (fKeyLe a b)

/-- `' '.join(words)`. -/
def joinWords (ws : List String) : String := String.intercalate " " ws

/-- The three per-strategy queries of `FTSFilter.filter` (src/src/search.py
lines 78-92), issued in the fixed order SUBSTRING, STARTSWITH, ATOM, each
row tagged with its strategy flag, concatenated into the `matched` list. -/
def taggedRows (provider : String → List (Nat × ℚ × String)) (query : String)
    (matchOn : Nat) : List (Nat × ℚ × String × Nat) :=
  let words := wordsOf query
  (if hasFlag matchOn MATCH_SUBSTRING then
    (provider (joinWords (words.map (fun w => w ++ "*")))).map
      (fun r => (r.1, r.2.1, r.2.2, MATCH_SUBSTRING))
  else []) ++
  (if hasFlag matchOn MATCH_STARTSWITH then
    (provider ("^" ++ joinWords words)).map
      (fun r => (r.1, r.2.1, r.2.2, MATCH_STARTSWITH))
  else []) ++
  (if hasFlag matchOn MATCH_ATOM then
    (provider (joinWords words)).map
      (fun r => (r.1, r.2.1, r.2.2, MATCH_ATOM))
  else [])

/-- The merge loop of `FTSFilter.filter` (src/src/search.py lines 94-96):
`results[(score, id_)] = (data, score * 1000, flag)` — the dict is keyed by
the PAIR `(score, id)`, and a later row with the same key overwrites an
earlier one. -/
def mergeRows (rows : List (Nat × ℚ × String × Nat)) :
    List ((ℚ × Nat) × (String × ℚ × Nat)) :=
  rows.foldl (fun m r => upsert m (r.2.1, r.1) (r.2.2.1, r.2.1 * 1000, r.2.2.2)) []

/-- The value the merge loop leaves at key `k`: the last row in `matched`
whose `(score, id)` equals `k`, if any. -/
def lastWrite (rows : List (Nat × ℚ × String × Nat)) (k : ℚ × Nat) :
    Option (String × ℚ × Nat) :=
  rows.foldl
    (fun acc r =>
      if (r.2.1, r.1) = k then some (r.2.2.1, r.2.1 * 1000, r.2.2.2) else acc)
    none

/-- `FTSFilter.filter` (src/src/search.py lines 56-109) with
`include_score=True`: merge the tagged per-strategy rows by `(score, id)`,
sort the keys (`reverse=ascending`, default `True`), read the dict back in
key order and truncate to `max_results`. -/
def ftsFilterScored (provider : String → List (Nat × ℚ × String))
    (query : String) (ascending : Bool) (maxResults : Nat) (matchOn : Nat) :
    List (String × ℚ × Nat) :=
  let m := mergeRows (taggedRows provider query matchOn)
  let keys := pySorted fKeyLeB ascending (m.map (·.1))
  let res := keys.filterMap (lookupA m)
  if maxResults ≠ 0 ∧ res.length > maxResults then res.take maxResults else res

/-- `FTSFilter._memoize_database` (src/src/search.py lines 111-118) hashes
`frozenset(self.data)` — the unordered, duplicate-collapsing set of the RAW
ITEMS — to name the persisted database.  The hash input is modelled as the
finite set itself. -/
def fingerprintInput {α : Type} [DecidableEq α] (data : List α) : Finset α :=
  data.toFinset

/-- Modelled from the spec: `fingerprint(items, keyOf)` as §4.3/§3 of the
spec describes it — a hash over the unordered, duplicate-collapsing set of
EXTRACTED SEARCH-KEY strings (the code has no such function; its hash input
is `frozenset(self.data)`). -/
def fingerprintSpecKeys {α : Type} (key : α → String) (data : List α) :
    Finset String :=
  (data.map key).toFinset

/-- The cache interaction of `FTSFilter.filter` (src/src/search.py lines
59-62): the filesystem state is the set of fingerprints whose database file
exists; `if not os.path.exists(database): self._create_index_db(...)`.
Returns the new state and whether the index builder ran. -/
def ftsBuildStep {α : Type} [DecidableEq α] (existing : Finset (Finset α))
    (data : List α) : Finset (Finset α) × Bool :=
  if fingerprintInput data ∈ existing then (existing, false)
  else (insert (fingerprintInput data) existing, true)

/-! ## Relevance decoder `make_rank_func` (src/src/search.py lines 147-174) -/

/-- `struct.unpack('I', matchinfo[i:i+4])` over the whole buffer: decode
native-byte-order (little-endian on the supported platforms) 4-byte
unsigned integers; a trailing short slice makes `struct.unpack` raise,
modelled as `none`. -/
def unpackU32s : List Nat → Option (List Nat)
  | [] => some []
  | b0 :: b1 :: b2 :: b3 :: rest =>
    (unpackU32s rest).map
      (fun ws => (b0 + 256 * b1 + 65536 * b2 + 16777216 * b3) :: ws)
  | _ => none

/-- `zip(it, it, it)` over one shared iterator: consecutive triples,
discarding a final group of fewer than three. -/
def triples : List Nat → List (Nat × Nat × Nat)
  | a :: b :: c :: rest => (a, b, c) :: triples rest
  | _ => []

/-- The `rank` closure of `make_rank_func(weights)`: drop the two header
integers, group the rest into per-column triples
`(hits_in_row, hits_in_all_rows, total_rows)`, zip with the weights
(truncating to the shorter), keep columns with `hits_in_all_rows != 0`, and
sum `hits_in_row * weight / hits_in_all_rows`.  Weights are rationals (the
source instantiates `(0, 1.0)`; its docstring prescribes float weights). -/
def rankFn (weights : List ℚ) (blob : List Nat) : Option ℚ :=
  (unpackU32s blob).map (fun ws =>
    ((((triples (ws.drop 2)).zip weights).filter
        (fun p => decide (p.1.2.1 ≠ 0))).map
      (fun p => (p.1.1 : ℚ) * p.2 / (p.1.2.1 : ℚ))).sum)

/-- The score as the spec's §4.2 words describe it: the sum over columns of
`hits_in_row × weight / hits_in_all_rows`, skipping columns with
`hits_in_all_rows = 0` AND columns with weight 0. -/
def rankSpec (weights : List ℚ) (ws : List Nat) : ℚ :=
  ((((triples (ws.drop 2)).zip weights).filter
      (fun p => decide (p.1.2.1 ≠ 0 ∧ p.2 ≠ 0))).map
    (fun p => (p.1.1 : ℚ) * p.2 / (p.1.2.1 : ℚ))).sum

/-- Modelled from the spec (§4.1 sort step as claim C3 reads it): apply
`min_score` first, then `max_results` truncation.  This is the comparison
definition for the refinement claim; the code's actual order is
`postProcess`. -/
def postProcessSpecOrder {α : Type} (maxResults : Nat) (minScore : ℚ)
    (rs : List (α × ℚ × Option Nat)) : List (α × ℚ × Option Nat) :=
  let rs1 :=
    if minScore ≠ 0 then rs.filter (fun r => decide (minScore < r.2.1)) else rs
  if maxResults ≠ 0 ∧ rs1.length > maxResults then rs1.take maxResults else rs1

/-- `IterFilter.filter` as it would behave with the spec's claimed
min-then-truncate order (comparison pipeline for claim C3). -/
def iterFilterSpecOrder {α : Type} (fold : String → String) (query : String)
    (data : List α) (key : α → String) (ascending : Bool) (minScore : ℚ)
    (maxResults : Nat) (matchOn : Nat) (foldDiacritics : Bool) :
    List (α × ℚ × Option Nat) :=
  let words := wordsOf (trimStr query)
  let m := buildResults fold matchOn foldDiacritics words key data
  let keys := pySorted sKeyLeB ascending (m.map (·.1))
  let res := keys.filterMap (lookupA m)
  postProcessSpecOrder maxResults minScore res

/-! ## Helper lemmas about the cascade -/

theorem lowerStr_data (s : String) : (lowerStr s).data = lowerL s.data := rfl

theorem trimStr_data (s : String) : (trimStr s).data = trimL s.data := rfl

theorem stageIf_ne (prev : ℚ × Option Nat) (c : Bool) (v : ℚ × Option Nat)
    (h : prev.1 ≠ 0) : stageIf prev c v = prev := by
  simp [stageIf, h]

theorem stageIf2_ne (prev : ℚ × Option Nat) (c1 : Bool) (v1 : ℚ × Option Nat)
    (c2 : Bool) (v2 : ℚ × Option Nat) (h : prev.1 ≠ 0) :
    stageIf2 prev c1 v1 c2 v2 = prev := by
  simp [stageIf2, h]

theorem stageOpt_ne (prev : ℚ × Option Nat) (c : Bool)
    (o : Option (ℚ × Option Nat)) (h : prev.1 ≠ 0) : stageOpt prev c o = prev := by
  simp [stageOpt, h]

theorem leadsWith_subset : ∀ xs ys : List Char, leadsWith xs ys = true →
    ∀ c ∈ xs, c ∈ ys := by
  intro xs
  induction xs with
  | nil => intro ys _ c hc; simp at hc
  | cons a as ih =>
    intro ys h c hc
    cases ys with
    | nil => simp [leadsWith] at h
    | cons b bs =>
      simp only [leadsWith, Bool.and_eq_true, beq_iff_eq] at h
      rcases List.mem_cons.1 hc with hc | hc
      · rw [hc, h.1]; exact List.mem_cons_self _ _
      · exact List.mem_cons_of_mem _ (ih bs h.2 c hc)

theorem leadsWith_all_contains (xs ys : List Char)
    (h : leadsWith xs ys = true) : xs.all (fun c => ys.contains c) = true := by
  rw [List.all_eq_true]
  intro c hc
  simpa [List.contains] using List.elem_iff.2 (leadsWith_subset xs ys h c hc)

/-! ## Claim C1 — STARTSWITH scoring -/

theorem lowerL_length (l : List Char) : (lowerL l).length = l.length :=
  List.length_map l Char.toLower

/-- Once a rule has set a nonzero score, every later `if not score:` block
of the cascade keeps the pair unchanged. -/
theorem stages_ne (a : ℚ) (r : Option Nat) (h : a ≠ 0)
    (c2 c3 c4 c4b c5 c6 : Bool) (v2 v3 v4 v4b v5 : ℚ × Option Nat)
    (o : Option (ℚ × Option Nat)) :
    stageOpt (stageIf (stageIf2 (stageIf (stageIf (a, r) c2 v2) c3 v3)
      c4 v4 c4b v4b) c5 v5) c6 o = (a, r) := by
  simp [stageIf, stageIf2, stageOpt, h]

/-- C1 (amended): in Python 2 the STARTSWITH score is
`100 - len(value) // len(word)` with integer FLOOR division.  Whenever the
STARTSWITH flag is enabled, the word is non-empty, the (ASCII) value
lower-cased starts with the lower-cased word, and the floor quotient is
below 100, the per-word score is exactly `100 - ⌊len(value)/len(word)⌋`
and the attributed rule is STARTSWITH. -/
theorem startswith_rule_score (fold : String → String) (value query : String)
    (matchOn : Nat) (fd : Bool)
    (_hq : query ≠ "")
    (hascii : isAsciiL value.data = true)
    (hflag : hasFlag matchOn MATCH_STARTSWITH = true)
    (hpre : leadsWith (lowerL query.data) (lowerL value.data) = true)
    (hlt : value.data.length / query.data.length < 100) :
    filterItem fold value query matchOn fd =
      ((100 : ℚ) - ((value.data.length / query.data.length : Nat) : ℚ),
       some MATCH_STARTSWITH) := by
  have heq : filterItem fold value query matchOn fd =
      filterCascade
        (if (if isAsciiL (lowerStr query).data then fd else false) then
          foldToAscii fold value else value)
        (lowerStr query) matchOn := rfl
  have hv : (if (if isAsciiL (lowerStr query).data then fd else false) then
      foldToAscii fold value else value) = value := by
    split
    · simp [foldToAscii, hascii]
    · rfl
  rw [heq, hv]
  have hcast : ((value.data.length / query.data.length : Nat) : ℚ) < 100 := by
    exact_mod_cast hlt
  have hne : (100 : ℚ) -
      ((value.data.length / query.data.length : Nat) : ℚ) ≠ 0 := by
    intro hc; linarith
  have hpos : (0 : ℚ) <
      100 - ((value.data.length / query.data.length : Nat) : ℚ) := by
    linarith
  have hlen : (lowerL query.data).length = query.data.length :=
    lowerL_length query.data
  simp only [filterCascade, lowerStr_data]
  rw [leadsWith_all_contains _ _ hpre]
  rw [if_neg (by decide : ¬ (true = false))]
  rw [hflag, hpre, hlen]
  rw [if_pos (by decide : (true && true) = true)]
  rw [stages_ne _ _ hne]
  rw [if_pos hpos]

/-- C1 witness: the amended theorem applied to the spec's own example,
value `"Kant, Immanuel"`, word `"kant"` (score `100 - 14 / 4 = 97`). -/
theorem startswith_rule_score_witness :
    ("kant" : String) ≠ "" ∧
    isAsciiL ("Kant, Immanuel" : String).data = true ∧
    filterItem (fun s => s) "Kant, Immanuel" "kant" MATCH_ALL true =
      ((100 : ℚ) -
        ((("Kant, Immanuel" : String).data.length /
          ("kant" : String).data.length : Nat) : ℚ),
       some MATCH_STARTSWITH) :=
  ⟨by decide, by decide,
   startswith_rule_score (fun s => s) "Kant, Immanuel" "kant" MATCH_ALL true
     (by decide) (by decide) (by decide) (by decide) (by decide)⟩

/-- C1 counterexample: for value `"Kant, Immanuel"` and word `"kant"` the
code yields score 97 (Python 2 floor division: `14 / 4 = 3`), not the
claimed exact-arithmetic `100 - 14/4 = 96.5`. -/
theorem c1_kant_score_is_97 :
    filterItem (fun s => s) "Kant, Immanuel" "kant" MATCH_ALL true =
      ((97 : ℚ), some MATCH_STARTSWITH) ∧
    (97 : ℚ) ≠ 100 - 14 / 4 := by
  constructor
  · with_unfolding_all rfl
  · norm_num

/-! ## Claim C5 — relevance decoding -/

theorem unpack_succeeds : ∀ (n : Nat) (blob : List Nat), blob.length = n →
    blob.length % 4 = 0 → ∃ ws, unpackU32s blob = some ws := by
  intro n
  induction n using Nat.strong_induction_on with
  | _ n ih =>
    intro blob hlen hmod
    match blob with
    | [] => exact ⟨[], rfl⟩
    | [b0] => simp at hmod
    | [b0, b1] => simp at hmod
    | [b0, b1, b2] => simp at hmod
    | b0 :: b1 :: b2 :: b3 :: rest =>
      have hlr : rest.length = n - 4 := by simp at hlen; omega
      have hlt : n - 4 < n := by simp at hlen; omega
      have hmr : rest.length % 4 = 0 := by simp at hmod ⊢; omega
      obtain ⟨ws, hws⟩ := ih (n - 4) hlt rest hlr hmr
      refine ⟨(b0 + 256 * b1 + 65536 * b2 + 16777216 * b3) :: ws, ?_⟩
      simp [unpackU32s, hws]

/-- Dropping zero-weight columns from the sum does not change it: their
terms are `hits * 0 / denom = 0`. -/
theorem sum_skip_zero_weights (l : List ((Nat × Nat × Nat) × ℚ)) :
    (((l.filter (fun p => decide (p.1.2.1 ≠ 0))).map
        (fun p => (p.1.1 : ℚ) * p.2 / (p.1.2.1 : ℚ))).sum) =
    (((l.filter (fun p => decide (p.1.2.1 ≠ 0 ∧ p.2 ≠ 0))).map
        (fun p => (p.1.1 : ℚ) * p.2 / (p.1.2.1 : ℚ))).sum) := by
  induction l with
  | nil => rfl
  | cons p ps ih =>
    by_cases h1 : p.1.2.1 = 0
    · have hd : (decide (p.1.2.1 ≠ 0)) = false := by simp [h1]
      have hd2 : (decide (p.1.2.1 ≠ 0 ∧ p.2 ≠ 0)) = false := by simp [h1]
      rw [List.filter_cons, List.filter_cons, hd, hd2]
      simp only [Bool.false_eq_true, if_false]
      exact ih
    · have hd : (decide (p.1.2.1 ≠ 0)) = true := by simp [h1]
      by_cases h2 : p.2 = 0
      · have hd2 : (decide (p.1.2.1 ≠ 0 ∧ p.2 ≠ 0)) = false := by simp [h2]
        rw [List.filter_cons, List.filter_cons, hd, hd2]
        simp only [Bool.false_eq_true, if_false, if_true, List.map_cons,
          List.sum_cons, h2, mul_zero, zero_div, zero_add]
        exact ih
      · have hd2 : (decide (p.1.2.1 ≠ 0 ∧ p.2 ≠ 0)) = true := by simp [h1, h2]
        rw [List.filter_cons, List.filter_cons, hd, hd2]
        simp only [if_true, List.map_cons, List.sum_cons]
        rw [ih]

/-- C5: `make_rank_func` decodes the blob as native-order 4-byte unsigned
integers, discards the two header integers, forms consecutive per-column
triples, and returns `Σ hits_in_row × weight / hits_in_all_rows` skipping
zero-denominator columns — which equals the spec's sum that also skips
zero-weight columns.  With the default weights `(0, 1.0)` the text-column
triple `(2, 5, 10)` contributes `2 × 1 / 5 = 0.4` (second conjunct: a
two-column blob whose id column carries weight 0). -/
theorem rank_decode_spec :
    (∀ (weights : List ℚ) (blob : List Nat), blob.length % 4 = 0 →
      ∃ ws, unpackU32s blob = some ws ∧
        rankFn weights blob = some (rankSpec weights ws)) ∧
    rankFn [0, 1]
      [9,0,0,0, 9,0,0,0, 1,0,0,0, 1,0,0,0, 1,0,0,0, 2,0,0,0, 5,0,0,0,
       10,0,0,0] = some (2/5 : ℚ) := by
  constructor
  · intro weights blob hmod
    obtain ⟨ws, hws⟩ := unpack_succeeds blob.length blob rfl hmod
    refine ⟨ws, hws, ?_⟩
    rw [rankFn, hws, Option.map_some']
    rw [rankSpec, sum_skip_zero_weights]
  · with_unfolding_all rfl

/-- C5 witness: the general decoding theorem applied to the concrete
32-byte blob of the second conjunct. -/
theorem rank_decode_spec_witness :
    ([9,0,0,0, 9,0,0,0, 1,0,0,0, 1,0,0,0, 1,0,0,0, 2,0,0,0, 5,0,0,0,
      10,0,0,0] : List Nat).length % 4 = 0 ∧
    ∃ ws, unpackU32s
        [9,0,0,0, 9,0,0,0, 1,0,0,0, 1,0,0,0, 1,0,0,0, 2,0,0,0, 5,0,0,0,
         10,0,0,0] = some ws ∧
      rankFn [0, 1]
        [9,0,0,0, 9,0,0,0, 1,0,0,0, 1,0,0,0, 1,0,0,0, 2,0,0,0, 5,0,0,0,
         10,0,0,0] = some (rankSpec [0, 1] ws) :=
  ⟨by decide,
   rank_decode_spec.1 [0, 1]
     [9,0,0,0, 9,0,0,0, 1,0,0,0, 1,0,0,0, 1,0,0,0, 2,0,0,0, 5,0,0,0,
      10,0,0,0] (by decide)⟩

/-! ## Claim C4 — index-cache fingerprint -/

/-- C4 (amended): the cache fingerprint is a deterministic function of the
unordered, duplicate-collapsing set of the RAW ITEMS (`frozenset(self.data)`
in `_memoize_database`), not of the extracted search keys; and a dataset
whose fingerprint already has a persisted index does not invoke the index
builder again. -/
theorem fingerprint_over_item_set :
    (∀ (α : Type) [DecidableEq α] (d1 d2 : List α), d1.Perm d2 →
      fingerprintInput d1 = fingerprintInput d2) ∧
    (∀ (α : Type) [DecidableEq α] (x : α) (d : List α),
      fingerprintInput (x :: x :: d) = fingerprintInput (x :: d)) ∧
    (∀ (α : Type) [DecidableEq α] (st : Finset (Finset α)) (d : List α),
      fingerprintInput d ∈ st → (ftsBuildStep st d).2 = false) ∧
    (∀ (α : Type) [DecidableEq α] (st : Finset (Finset α)) (d d' : List α),
      fingerprintInput d' = fingerprintInput d →
      (ftsBuildStep (ftsBuildStep st d).1 d').2 = false) := by
  refine ⟨?_, ?_, ?_, ?_⟩
  · intro α _ d1 d2 h
    apply Finset.ext
    intro a
    simp [fingerprintInput, List.mem_toFinset, h.mem_iff]
  · intro α _ x d
    simp [fingerprintInput]
  · intro α _ st d h
    simp [ftsBuildStep, h]
  · intro α _ st d d' h
    by_cases hd : fingerprintInput d ∈ st
    · simp [ftsBuildStep, hd, h]
    · simp [ftsBuildStep, hd, h]

/-- C4 witness: a permuted, duplicated dataset maps to the same fingerprint,
and re-querying after a build does not rebuild. -/
theorem fingerprint_over_item_set_witness :
    ([1, 2, 2] : List Nat).Perm [2, 1, 2] ∧
    fingerprintInput [1, 2, 2] = fingerprintInput ([2, 1, 2] : List Nat) ∧
    fingerprintInput ([3] : List Nat) = fingerprintInput [3] ∧
    (ftsBuildStep (ftsBuildStep (∅ : Finset (Finset Nat)) [3]).1 [3]).2 =
      false :=
  ⟨by decide, fingerprint_over_item_set.1 Nat [1, 2, 2] [2, 1, 2] (by decide),
   rfl,
   fingerprint_over_item_set.2.2.2 Nat ∅ [3] [3] rfl⟩

/-- C4 counterexample: two datasets with identical extracted-key sets
(`key` maps everything to `"x"`) but different item sets have different
fingerprints, so the fingerprint is NOT a function of the extracted-key
set. -/
theorem c4_fingerprint_ignores_keys :
    fingerprintSpecKeys (fun _ => "x") ["a"] =
      fingerprintSpecKeys (fun _ => "x") ["b"] ∧
    fingerprintInput ["a"] ≠ fingerprintInput ["b"] := by
  constructor
  · rfl
  · decide

/-! ## Structure of the per-item computation -/

theorem stageIf_inv (prev v : ℚ × Option Nat) (c : Bool)
    (hprev : prev.2 = none → prev.1 = 0) (hv : v.2 ≠ none) :
    (stageIf prev c v).2 = none → (stageIf prev c v).1 = 0 := by
  unfold stageIf
  split
  · split
    · intro h; exact absurd h hv
    · exact hprev
  · exact hprev

theorem stageIf2_inv (prev v1 v2 : ℚ × Option Nat) (c1 c2 : Bool)
    (hprev : prev.2 = none → prev.1 = 0) (hv1 : v1.2 ≠ none)
    (hv2 : v2.2 ≠ none) :
    (stageIf2 prev c1 v1 c2 v2).2 = none → (stageIf2 prev c1 v1 c2 v2).1 = 0 := by
  unfold stageIf2
  split
  · split
    · intro h; exact absurd h hv1
    · split
      · intro h; exact absurd h hv2
      · exact hprev
  · exact hprev

theorem stageOpt_inv (prev : ℚ × Option Nat) (c : Bool)
    (o : Option (ℚ × Option Nat))
    (hprev : prev.2 = none → prev.1 = 0)
    (ho : ∀ w, o = some w → w.2 ≠ none) :
    (stageOpt prev c o).2 = none → (stageOpt prev c o).1 = 0 := by
  unfold stageOpt
  split
  · split
    · cases o with
      | none => exact hprev
      | some w => intro h; exact absurd h (ho w rfl)
    · exact hprev
  · exact hprev

theorem chain_inv (s1 : ℚ × Option Nat) (h1 : s1.2 = none → s1.1 = 0)
    (c2 c3 c4 c4b c5 c6 : Bool) (v2 v3 v4 v4b v5 : ℚ × Option Nat)
    (hv2 : v2.2 ≠ none) (hv3 : v3.2 ≠ none) (hv4 : v4.2 ≠ none)
    (hv4b : v4b.2 ≠ none) (hv5 : v5.2 ≠ none)
    (o : Option (ℚ × Option Nat)) (ho : ∀ w, o = some w → w.2 ≠ none) :
    (if 0 < (stageOpt (stageIf (stageIf2 (stageIf (stageIf s1 c2 v2) c3 v3)
        c4 v4 c4b v4b) c5 v5) c6 o).1 then
      stageOpt (stageIf (stageIf2 (stageIf (stageIf s1 c2 v2) c3 v3)
        c4 v4 c4b v4b) c5 v5) c6 o
    else ((0 : ℚ), (none : Option Nat))) = (0, none) ∨
    (0 < ((if 0 < (stageOpt (stageIf (stageIf2 (stageIf (stageIf s1 c2 v2)
        c3 v3) c4 v4 c4b v4b) c5 v5) c6 o).1 then
      stageOpt (stageIf (stageIf2 (stageIf (stageIf s1 c2 v2) c3 v3)
        c4 v4 c4b v4b) c5 v5) c6 o
    else ((0 : ℚ), (none : Option Nat)))).1 ∧
    ((if 0 < (stageOpt (stageIf (stageIf2 (stageIf (stageIf s1 c2 v2)
        c3 v3) c4 v4 c4b v4b) c5 v5) c6 o).1 then
      stageOpt (stageIf (stageIf2 (stageIf (stageIf s1 c2 v2) c3 v3)
        c4 v4 c4b v4b) c5 v5) c6 o
    else ((0 : ℚ), (none : Option Nat)))).2 ≠ none) := by
  have hinv := stageOpt_inv _ c6 o
    (stageIf_inv _ v5 c5
      (stageIf2_inv _ v4 v4b c4 c4b
        (stageIf_inv _ v3 c3 (stageIf_inv _ v2 c2 h1 hv2) hv3) hv4 hv4b)
      hv5) ho
  by_cases hp : 0 < (stageOpt (stageIf (stageIf2 (stageIf (stageIf s1 c2 v2)
      c3 v3) c4 v4 c4b v4b) c5 v5) c6 o).1
  · refine Or.inr ⟨by rwa [if_pos hp], ?_⟩
    rw [if_pos hp]
    intro h
    exact absurd (hinv h) (ne_of_gt hp)
  · exact Or.inl (if_neg hp)

/-- `_filter_item` returns `(0, None)` or a positive score paired with a
rule label (src/src/search.py lines 416-418). -/
theorem filterCascade_cases (value q : String) (matchOn : Nat) :
    filterCascade value q matchOn = (0, none) ∨
    (0 < (filterCascade value q matchOn).1 ∧
      (filterCascade value q matchOn).2 ≠ none) := by
  unfold filterCascade
  dsimp only
  split
  · exact Or.inl rfl
  · apply chain_inv
    · split
      · intro h; simp at h
      · intro _; rfl
    · simp
    · simp
    · simp
    · simp
    · simp
    · intro w hw
      simp only [allcharsResult, Option.map_eq_some'] at hw
      obtain ⟨e, _, he⟩ := hw
      rw [← he]
      simp

theorem filterItem_cases (fold : String → String) (value query : String)
    (matchOn : Nat) (fd : Bool) :
    filterItem fold value query matchOn fd = (0, none) ∨
    (0 < (filterItem fold value query matchOn fd).1 ∧
      (filterItem fold value query matchOn fd).2 ≠ none) :=
  filterCascade_cases _ _ _

theorem filterItem_nonneg (fold : String → String) (value query : String)
    (matchOn : Nat) (fd : Bool) :
    0 ≤ (filterItem fold value query matchOn fd).1 := by
  rcases filterItem_cases fold value query matchOn fd with h | h
  · rw [h]
  · exact le_of_lt h.1

theorem filterItem_pos_rule (fold : String → String) (value query : String)
    (matchOn : Nat) (fd : Bool)
    (h : (filterItem fold value query matchOn fd).1 ≠ 0) :
    0 < (filterItem fold value query matchOn fd).1 ∧
    (filterItem fold value query matchOn fd).2 ≠ none := by
  rcases filterItem_cases fold value query matchOn fd with h' | h'
  · rw [h'] at h; simp at h
  · exact h'

/-- Empty words are skipped, so the word loop only sees the non-empty
words. -/
theorem foldl_wordStep_filter (fold : String → String) (matchOn : Nat)
    (fd : Bool) (value : String) :
    ∀ (words : List String) (acc : ℚ × Option Nat × Bool),
    words.foldl (wordStep fold matchOn fd value) acc =
    (words.filter (fun w => decide (w ≠ ""))).foldl
      (wordStep fold matchOn fd value) acc := by
  intro words
  induction words with
  | nil => intro acc; rfl
  | cons w ws ih =>
    intro acc
    rw [List.foldl_cons, List.filter_cons]
    by_cases hw : w = ""
    · have hd : (decide (w ≠ "")) = false := by simp [hw]
      rw [hd]
      simp only [Bool.false_eq_true, if_false]
      rw [show wordStep fold matchOn fd value acc w = acc from by
        simp [wordStep, hw]]
      exact ih acc
    · have hd : (decide (w ≠ "")) = true := by simp [hw]
      rw [hd]
      simp only [if_true, List.foldl_cons]
      exact ih _

/-- The word loop over non-empty words: the score accumulates the per-word
scores, the rule is overwritten by each word (so the last one wins), and
`skip` records any zero per-word score. -/
theorem foldl_wordStep_spec (fold : String → String) (matchOn : Nat)
    (fd : Bool) (value : String) :
    ∀ (l : List String), (∀ w ∈ l, w ≠ "") →
    ∀ (acc : ℚ × Option Nat × Bool),
    l.foldl (wordStep fold matchOn fd value) acc =
    (acc.1 + (l.map (fun w => (filterItem fold value w matchOn fd).1)).sum,
     l.getLast?.elim acc.2.1 (fun w => (filterItem fold value w matchOn fd).2),
     acc.2.2 ||
       l.any (fun w => decide ((filterItem fold value w matchOn fd).1 = 0))) := by
  intro l
  induction l with
  | nil => intro _ acc; simp [Option.elim]
  | cons w ws ih =>
    intro hl acc
    rw [List.foldl_cons]
    have hw : w ≠ "" := hl w (List.mem_cons_self _ _)
    rw [show wordStep fold matchOn fd value acc w =
        (acc.1 + (filterItem fold value w matchOn fd).1,
         (filterItem fold value w matchOn fd).2,
         acc.2.2 || decide ((filterItem fold value w matchOn fd).1 = 0)) from by
      simp [wordStep, hw]]
    rw [ih (fun w' hw' => hl w' (List.mem_cons_of_mem _ hw')) _]
    cases ws with
    | nil => simp [Option.elim]
    | cons w2 ws2 =>
      have hlast : (w2 :: ws2).getLast?.isSome := by
        rw [Option.isSome_iff_ne_none]
        simp [List.getLast?_eq_none_iff]
      obtain ⟨lw, hlw⟩ := Option.isSome_iff_exists.1 hlast
      simp only [List.map_cons, List.sum_cons, List.any_cons,
        List.getLast?_cons_cons, hlw, Option.elim]
      refine Prod.ext ?_ (Prod.ext ?_ ?_)
      · simp [add_assoc]
      · rfl
      · simp [Bool.or_assoc]

/-- Characterization of a matching item (src/src/search.py lines 286-307):
the extracted key is non-empty, no non-empty word scored zero, the total is
the sum of the per-word scores (and is nonzero), and the rule is that of
the last non-empty word. -/
theorem itemResult_eq_some (fold : String → String) (matchOn : Nat)
    (fd : Bool) (words : List String) (value : String) (s : ℚ)
    (r : Option Nat)
    (h : itemResult fold matchOn fd words value = some (s, r)) :
    value ≠ "" ∧
    ((words.filter (fun w => decide (w ≠ ""))).any
        (fun w => decide ((filterItem fold value w matchOn fd).1 = 0))) =
      false ∧
    s = ((words.filter (fun w => decide (w ≠ ""))).map
        (fun w => (filterItem fold value w matchOn fd).1)).sum ∧
    s ≠ 0 ∧
    r = ((words.filter (fun w => decide (w ≠ ""))).getLast?).elim none
        (fun w => (filterItem fold value w matchOn fd).2) := by
  unfold itemResult at h
  by_cases hv : value = ""
  · rw [if_pos hv] at h; simp at h
  · rw [if_neg hv] at h
    have hfl : ∀ w ∈ words.filter (fun w => decide (w ≠ "")), w ≠ "" := by
      intro w hw
      have := (List.mem_filter.1 hw).2
      simpa using this
    rw [show scoreItem fold matchOn fd value words =
        words.foldl (wordStep fold matchOn fd value) (0, none, false) from
      rfl] at h
    rw [foldl_wordStep_filter fold matchOn fd value words _,
      foldl_wordStep_spec fold matchOn fd value _ hfl _] at h
    simp only [zero_add, Bool.false_or] at h
    by_cases hany : ((words.filter (fun w => decide (w ≠ ""))).any
        (fun w => decide ((filterItem fold value w matchOn fd).1 = 0))) = true
    · rw [if_pos hany] at h; simp at h
    · rw [if_neg hany] at h
      by_cases hz : ((words.filter (fun w => decide (w ≠ ""))).map
          (fun w => (filterItem fold value w matchOn fd).1)).sum = 0
      · rw [if_pos hz] at h; simp at h
      · rw [if_neg hz] at h
        have hsr := (Option.some_inj.1 h)
        have hs : ((words.filter (fun w => decide (w ≠ ""))).map
            (fun w => (filterItem fold value w matchOn fd).1)).sum = s :=
          congrArg Prod.fst hsr
        have hr : ((words.filter (fun w => decide (w ≠ ""))).getLast?).elim
            none (fun w => (filterItem fold value w matchOn fd).2) = r :=
          congrArg Prod.snd hsr
        exact ⟨hv, Bool.eq_false_iff.mpr hany, hs.symm, hs ▸ hz, hr.symm⟩

/-- A matching item has a positive total score and a non-null rule. -/
theorem itemResult_pos (fold : String → String) (matchOn : Nat) (fd : Bool)
    (words : List String) (value : String) (s : ℚ) (r : Option Nat)
    (h : itemResult fold matchOn fd words value = some (s, r)) :
    0 < s ∧ r ≠ none := by
  obtain ⟨hv, hany, hsum, hne, hrule⟩ :=
    itemResult_eq_some fold matchOn fd words value s r h
  constructor
  · have hnn : 0 ≤ s := by
      rw [hsum]
      apply List.sum_nonneg
      intro x hx
      rcases List.mem_map.1 hx with ⟨w, _, hwx⟩
      exact hwx ▸ filterItem_nonneg fold value w matchOn fd
    exact lt_of_le_of_ne hnn (Ne.symm hne)
  · cases hlast : (words.filter (fun w => decide (w ≠ ""))).getLast? with
    | none =>
      have hnil := List.getLast?_eq_none_iff.1 hlast
      rw [hnil] at hsum
      simp at hsum
      exact absurd hsum hne
    | some w =>
      rw [hlast] at hrule
      simp only [Option.elim] at hrule
      have hwz : (filterItem fold value w matchOn fd).1 ≠ 0 := by
        intro hz
        have hmem : w ∈ words.filter (fun w => decide (w ≠ "")) :=
          List.mem_of_mem_getLast? (by rw [hlast]; rfl)
        have : ((words.filter (fun w => decide (w ≠ ""))).any
            (fun w => decide ((filterItem fold value w matchOn fd).1 = 0))) =
            true :=
          List.any_eq_true.2 ⟨w, hmem, by simp [hz]⟩
        rw [this] at hany
        exact Bool.true_eq_false.mp hany
      rw [hrule]
      exact (filterItem_pos_rule fold value w matchOn fd hwz).2

/-- Invariant of the results dict: every entry was written by a matching
item, under the key `(100/score, lower(value), score)`. -/
def resEntryOK {α : Type} (fold : String → String) (matchOn : Nat)
    (fd : Bool) (words : List String) (key : α → String)
    (e : (ℚ × String × ℚ) × (α × ℚ × Option Nat)) : Prop :=
  itemResult fold matchOn fd words (trimStr (key e.2.1)) =
    some (e.2.2.1, e.2.2.2) ∧
  e.1 = (100 / e.2.2.1, lowerStr (trimStr (key e.2.1)), e.2.2.1)

theorem iterStep_none {α : Type} (fold : String → String) (matchOn : Nat)
    (fd : Bool) (words : List String) (key : α → String)
    (m : List ((ℚ × String × ℚ) × (α × ℚ × Option Nat))) (x : α)
    (h : itemResult fold matchOn fd words (trimStr (key x)) = none) :
    iterStep fold matchOn fd words key m x = m := by
  unfold iterStep
  dsimp only
  rw [h]

theorem iterStep_some {α : Type} (fold : String → String) (matchOn : Nat)
    (fd : Bool) (words : List String) (key : α → String)
    (m : List ((ℚ × String × ℚ) × (α × ℚ × Option Nat))) (x : α) (s : ℚ)
    (r : Option Nat)
    (h : itemResult fold matchOn fd words (trimStr (key x)) = some (s, r)) :
    iterStep fold matchOn fd words key m x =
      upsert m (100 / s, lowerStr (trimStr (key x)), s) (x, s, r) := by
  unfold iterStep
  dsimp only
  rw [h]

theorem foldl_iterStep_inv {α : Type} (fold : String → String) (matchOn : Nat)
    (fd : Bool) (words : List String) (key : α → String) :
    ∀ (data : List α) (m : List ((ℚ × String × ℚ) × (α × ℚ × Option Nat))),
    (∀ e ∈ m, resEntryOK fold matchOn fd words key e) →
    ∀ e ∈ data.foldl (iterStep fold matchOn fd words key) m,
      resEntryOK fold matchOn fd words key e := by
  intro data
  induction data with
  | nil => intro m hm e he; exact hm e he
  | cons x xs ih =>
    intro m hm e he
    rw [List.foldl_cons] at he
    refine ih _ ?_ e he
    intro e' he'
    cases hir : itemResult fold matchOn fd words (trimStr (key x)) with
    | none =>
      rw [iterStep_none fold matchOn fd words key m x hir] at he'
      exact hm e' he'
    | some sr =>
      obtain ⟨s, r⟩ := sr
      rw [iterStep_some fold matchOn fd words key m x s r hir] at he'
      rcases mem_upsert he' with h' | h'
      · rw [h']
        exact ⟨hir, rfl⟩
      · exact hm e' h'

theorem mem_buildResults {α : Type} (fold : String → String) (matchOn : Nat)
    (fd : Bool) (words : List String) (key : α → String) (data : List α)
    (e : (ℚ × String × ℚ) × (α × ℚ × Option Nat))
    (he : e ∈ buildResults fold matchOn fd words key data) :
    resEntryOK fold matchOn fd words key e :=
  foldl_iterStep_inv fold matchOn fd words key data [] (by simp) e he

theorem mem_postProcess {α : Type} (mr : Nat) (ms : ℚ)
    (rs : List (α × ℚ × Option Nat)) (y : α × ℚ × Option Nat)
    (h : y ∈ postProcess mr ms rs) : y ∈ rs := by
  unfold postProcess at h
  dsimp only at h
  by_cases hm : ms ≠ 0
  · rw [if_pos hm] at h
    have h1 := List.mem_of_mem_filter h
    by_cases hc : mr ≠ 0 ∧ rs.length > mr
    · rw [if_pos hc] at h1
      exact List.mem_of_mem_take h1
    · rwa [if_neg hc] at h1
  · rw [if_neg hm] at h
    by_cases hc : mr ≠ 0 ∧ rs.length > mr
    · rw [if_pos hc] at h
      exact List.mem_of_mem_take h
    · rwa [if_neg hc] at h

/-- Every output tuple of `IterFilter.filter` arises from a matching item:
its score and rule are exactly that item's `itemResult`. -/
theorem mem_iterFilterScored {α : Type} (fold : String → String)
    (query : String) (data : List α) (key : α → String) (ascending : Bool)
    (minScore : ℚ) (maxResults : Nat) (matchOn : Nat) (fd : Bool)
    (x : α) (s : ℚ) (r : Option Nat)
    (h : (x, s, r) ∈ iterFilterScored fold query data key ascending minScore
      maxResults matchOn fd) :
    itemResult fold matchOn fd (wordsOf (trimStr query)) (trimStr (key x)) =
      some (s, r) := by
  unfold iterFilterScored at h
  dsimp only at h
  have h1 := mem_postProcess _ _ _ _ h
  rcases List.mem_filterMap.1 h1 with ⟨k, _, hk⟩
  have hmem := lookupA_mem hk
  have := mem_buildResults fold matchOn fd (wordsOf (trimStr query)) key data
    _ hmem
  exact this.1

/-! ## Claim C8 — output invariant -/

/-- C8: every tuple in the rule-based matcher's output has a strictly
positive score and a non-null match rule; a zero score never appears. -/
theorem output_score_pos_rule {α : Type} (fold : String → String)
    (query : String) (data : List α) (key : α → String) (ascending : Bool)
    (minScore : ℚ) (maxResults : Nat) (matchOn : Nat) (fd : Bool)
    (x : α) (s : ℚ) (r : Option Nat)
    (h : (x, s, r) ∈ iterFilterScored fold query data key ascending minScore
      maxResults matchOn fd) :
    0 < s ∧ r ≠ none :=
  itemResult_pos fold matchOn fd (wordsOf (trimStr query)) (trimStr (key x))
    s r
    (mem_iterFilterScored fold query data key ascending minScore maxResults
      matchOn fd x s r h)

/-- C8 witness: the singleton output of the query `"kant"` over
`["Kant, Immanuel"]`. -/
theorem output_score_pos_rule_witness :
    ("Kant, Immanuel", (97 : ℚ), some MATCH_STARTSWITH) ∈
      iterFilterScored (fun s => s) "kant" ["Kant, Immanuel"] (fun s => s)
        false 0 0 MATCH_ALL true ∧
    (0 < (97 : ℚ) ∧ (some MATCH_STARTSWITH : Option Nat) ≠ none) := by
  have hl : iterFilterScored (fun s => s) "kant" ["Kant, Immanuel"]
      (fun s => s) false 0 0 MATCH_ALL true =
      [("Kant, Immanuel", (97 : ℚ), some MATCH_STARTSWITH)] := by
    with_unfolding_all rfl
  have hm : ("Kant, Immanuel", (97 : ℚ), some MATCH_STARTSWITH) ∈
      iterFilterScored (fun s => s) "kant" ["Kant, Immanuel"] (fun s => s)
        false 0 0 MATCH_ALL true := by
    rw [hl]
    exact List.mem_singleton.2 rfl
  exact ⟨hm, output_score_pos_rule (fun s => s) "kant" ["Kant, Immanuel"]
    (fun s => s) false 0 0 MATCH_ALL true "Kant, Immanuel" 97
    (some MATCH_STARTSWITH) hm⟩

/-! ## Claim C6 — multi-word AND, score sum, last-word rule -/

/-- C6: if any non-empty query word scores zero against an item's key, the
item never appears in the output (logical AND across words); and every
output tuple's score is the sum of the per-word scores with the rule of
the last non-empty word. -/
theorem multiword_and_sum_last_rule {α : Type} (fold : String → String)
    (query : String) (data : List α) (key : α → String) (ascending : Bool)
    (minScore : ℚ) (maxResults : Nat) (matchOn : Nat) (fd : Bool) (x : α) :
    ((∃ w ∈ wordsOf (trimStr query), w ≠ "" ∧
        (filterItem fold (trimStr (key x)) w matchOn fd).1 = 0) →
      ∀ (s : ℚ) (r : Option Nat),
        (x, s, r) ∉ iterFilterScored fold query data key ascending minScore
          maxResults matchOn fd) ∧
    (∀ (s : ℚ) (r : Option Nat),
      (x, s, r) ∈ iterFilterScored fold query data key ascending minScore
        maxResults matchOn fd →
      s = (((wordsOf (trimStr query)).filter (fun w => decide (w ≠ ""))).map
          (fun w => (filterItem fold (trimStr (key x)) w matchOn fd).1)).sum ∧
      ∀ w, ((wordsOf (trimStr query)).filter
          (fun w => decide (w ≠ ""))).getLast? = some w →
        r = (filterItem fold (trimStr (key x)) w matchOn fd).2) := by
  constructor
  · rintro ⟨w, hwmem, hwne, hwz⟩ s r hmem
    have him := mem_iterFilterScored fold query data key ascending minScore
      maxResults matchOn fd x s r hmem
    obtain ⟨_, hany, _, _, _⟩ := itemResult_eq_some fold matchOn fd
      (wordsOf (trimStr query)) (trimStr (key x)) s r him
    have htr : (((wordsOf (trimStr query)).filter
        (fun w => decide (w ≠ ""))).any
        (fun w => decide ((filterItem fold (trimStr (key x)) w matchOn
          fd).1 = 0))) = true :=
      List.any_eq_true.2
        ⟨w, List.mem_filter.2 ⟨hwmem, by simp [hwne]⟩, by simp [hwz]⟩
    rw [htr] at hany
    exact Bool.true_eq_false.mp hany
  · intro s r hmem
    have him := mem_iterFilterScored fold query data key ascending minScore
      maxResults matchOn fd x s r hmem
    obtain ⟨_, _, hsum, _, hrule⟩ := itemResult_eq_some fold matchOn fd
      (wordsOf (trimStr query)) (trimStr (key x)) s r him
    refine ⟨hsum, ?_⟩
    intro w hw
    rw [hw] at hrule
    simpa [Option.elim] using hrule

/-- C6 witness: over `["Kant, Immanuel"]`, the failing word `"zz"` keeps
the item out (first part), and the two-word query `"ka im"` produces the
sum `93 + 83 = 176` with the SUBSTRING rule of the last word `"im"`
(second part). -/
theorem multiword_and_sum_last_rule_witness :
    (∃ w ∈ wordsOf (trimStr "zz"), w ≠ "" ∧
      (filterItem (fun s => s) (trimStr "Kant, Immanuel") w MATCH_ALL
        true).1 = 0) ∧
    ("Kant, Immanuel", (1 : ℚ), (some 1 : Option Nat)) ∉
      iterFilterScored (fun s => s) "zz" ["Kant, Immanuel"] (fun s => s)
        false 0 0 MATCH_ALL true ∧
    ("Kant, Immanuel", (176 : ℚ), (some MATCH_SUBSTRING : Option Nat)) ∈
      iterFilterScored (fun s => s) "ka im" ["Kant, Immanuel"] (fun s => s)
        false 0 0 MATCH_ALL true ∧
    (176 : ℚ) = (((wordsOf (trimStr "ka im")).filter
        (fun w => decide (w ≠ ""))).map
        (fun w => (filterItem (fun s => s) (trimStr (("Kant, Immanuel" :
          String))) w MATCH_ALL true).1)).sum := by
  have hex : ∃ w ∈ wordsOf (trimStr "zz"), w ≠ "" ∧
      (filterItem (fun s => s) (trimStr "Kant, Immanuel") w MATCH_ALL
        true).1 = 0 := by
    refine ⟨"zz", by decide, by decide, ?_⟩
    with_unfolding_all rfl
  have hl : iterFilterScored (fun s => s) "ka im" ["Kant, Immanuel"]
      (fun s => s) false 0 0 MATCH_ALL true =
      [("Kant, Immanuel", (176 : ℚ), some MATCH_SUBSTRING)] := by
    with_unfolding_all rfl
  have hm : ("Kant, Immanuel", (176 : ℚ),
      (some MATCH_SUBSTRING : Option Nat)) ∈
      iterFilterScored (fun s => s) "ka im" ["Kant, Immanuel"] (fun s => s)
        false 0 0 MATCH_ALL true := by
    rw [hl]
    exact List.mem_singleton.2 rfl
  refine ⟨hex, ?_, hm, ?_⟩
  · exact (multiword_and_sum_last_rule (fun s => s) "zz" ["Kant, Immanuel"]
      (fun s => s) false 0 0 MATCH_ALL true "Kant, Immanuel").1 hex 1 (some 1)
  · exact ((multiword_and_sum_last_rule (fun s => s) "ka im"
      ["Kant, Immanuel"] (fun s => s) false 0 0 MATCH_ALL true
      "Kant, Immanuel").2 176 (some MATCH_SUBSTRING) hm).1

/-! ## Claim C7 — empty query, empty keys, empty collections -/

theorem itemResult_empty_word (fold : String → String) (matchOn : Nat)
    (fd : Bool) (value : String) :
    itemResult fold matchOn fd [""] value = none := by
  unfold itemResult
  by_cases hv : value = ""
  · rw [if_pos hv]
  · rw [if_neg hv]
    rw [show scoreItem fold matchOn fd value [""] = (0, none, false) from by
      simp [scoreItem, wordStep]]
    simp

theorem foldl_iterStep_all_none {α : Type} (fold : String → String)
    (matchOn : Nat) (fd : Bool) (words : List String) (key : α → String)
    (hnone : ∀ v, itemResult fold matchOn fd words v = none) :
    ∀ (data : List α) m,
      data.foldl (iterStep fold matchOn fd words key) m = m := by
  intro data
  induction data with
  | nil => intro m; rfl
  | cons x xs ih =>
    intro m
    rw [List.foldl_cons, iterStep_none fold matchOn fd words key m x
      (hnone _)]
    exact ih m

theorem pySorted_nil {K : Type} (le : K → K → Bool) (r : Bool) :
    pySorted le r [] = [] := by
  cases r <;> rfl

theorem postProcess_nil {α : Type} (mr : Nat) (ms : ℚ) :
    postProcess mr ms ([] : List (α × ℚ × Option Nat)) = [] := by
  simp [postProcess]

/-- C7: an empty or all-whitespace query yields an empty result for any
item collection; an empty item collection yields an empty result; an item
whose extracted key trims to the empty string never appears in the output.
All three are ordinary "no match" outcomes of the total function. -/
theorem empty_inputs_no_match :
    (∀ (α : Type) (fold : String → String) (query : String) (data : List α)
      (key : α → String) (ascending : Bool) (minScore : ℚ)
      (maxResults : Nat) (matchOn : Nat) (fd : Bool),
      trimStr query = "" →
      iterFilterScored fold query data key ascending minScore maxResults
        matchOn fd = []) ∧
    (∀ (α : Type) (fold : String → String) (query : String)
      (key : α → String) (ascending : Bool) (minScore : ℚ)
      (maxResults : Nat) (matchOn : Nat) (fd : Bool),
      iterFilterScored fold query ([] : List α) key ascending minScore
        maxResults matchOn fd = []) ∧
    (∀ (α : Type) (fold : String → String) (query : String) (data : List α)
      (key : α → String) (ascending : Bool) (minScore : ℚ)
      (maxResults : Nat) (matchOn : Nat) (fd : Bool) (x : α) (s : ℚ)
      (r : Option Nat), trimStr (key x) = "" →
      (x, s, r) ∉ iterFilterScored fold query data key ascending minScore
        maxResults matchOn fd) := by
  refine ⟨?_, ?_, ?_⟩
  · intro α fold query data key ascending minScore maxResults matchOn fd h
    unfold iterFilterScored
    dsimp only
    rw [h]
    have hw : wordsOf "" = [""] := rfl
    rw [hw]
    have hb : buildResults fold matchOn fd [""] key data = [] := by
      unfold buildResults
      exact foldl_iterStep_all_none fold matchOn fd [""] key
        (itemResult_empty_word fold matchOn fd) data []
    rw [hb]
    simp [pySorted_nil, postProcess_nil]
  · intro α fold query key ascending minScore maxResults matchOn fd
    unfold iterFilterScored
    dsimp only
    rw [show buildResults fold matchOn fd (wordsOf (trimStr query)) key
      ([] : List α) = [] from rfl]
    simp [pySorted_nil, postProcess_nil]
  · intro α fold query data key ascending minScore maxResults matchOn fd
      x s r hx hmem
    have him := mem_iterFilterScored fold query data key ascending minScore
      maxResults matchOn fd x s r hmem
    rw [hx] at him
    simp [itemResult] at him

/-- C7 witness: a whitespace query over a non-empty collection, the empty
collection, and an item with an empty extracted key. -/
theorem empty_inputs_no_match_witness :
    trimStr "   " = "" ∧
    iterFilterScored (fun s => s) "   " ["Kant, Immanuel"] (fun s => s)
      false 0 0 MATCH_ALL true = [] ∧
    iterFilterScored (fun s => s) "kant" ([] : List String) (fun s => s)
      false 0 0 MATCH_ALL true = [] ∧
    trimStr "  " = "" ∧
    ("  ", (5 : ℚ), (some 1 : Option Nat)) ∉
      iterFilterScored (fun s => s) "kant" ["  "] (fun s => s) false 0 0
        MATCH_ALL true := by
  refine ⟨by decide, ?_, ?_, by decide, ?_⟩
  · exact empty_inputs_no_match.1 String (fun s => s) "   "
      ["Kant, Immanuel"] (fun s => s) false 0 0 MATCH_ALL true (by decide)
  · exact empty_inputs_no_match.2.1 String (fun s => s) "kant" (fun s => s)
      false 0 0 MATCH_ALL true
  · exact empty_inputs_no_match.2.2 String (fun s => s) "kant" ["  "]
      (fun s => s) false 0 0 MATCH_ALL true "  " 5 (some 1) (by decide)

/-! ## Claim C9 — equal sort keys overwrite, last item wins -/

/-- C9: two distinct matching items with the same total score and the same
lower-cased extracted key collide on the dict key
`(100/score, value.lower(), score)`; the later assignment overwrites the
earlier one, so only the item enumerated last appears in the output. -/
theorem equal_key_last_wins {α : Type} (fold : String → String)
    (query : String) (key : α → String) (ascending : Bool) (matchOn : Nat)
    (fd : Bool) (a b : α) (s : ℚ) (ra rb : Option Nat)
    (hab : a ≠ b)
    (ha : itemResult fold matchOn fd (wordsOf (trimStr query))
      (trimStr (key a)) = some (s, ra))
    (hb : itemResult fold matchOn fd (wordsOf (trimStr query))
      (trimStr (key b)) = some (s, rb))
    (hkey : lowerStr (trimStr (key b)) = lowerStr (trimStr (key a))) :
    iterFilterScored fold query [a, b] key ascending 0 0 matchOn fd =
      [(b, s, rb)] ∧
    ∀ (s' : ℚ) (r' : Option Nat),
      (a, s', r') ∉ iterFilterScored fold query [a, b] key ascending 0 0
        matchOn fd := by
  have hbld : buildResults fold matchOn fd (wordsOf (trimStr query)) key
      [a, b] = [((100 / s, lowerStr (trimStr (key a)), s), (b, s, rb))] := by
    unfold buildResults
    rw [List.foldl_cons, List.foldl_cons, List.foldl_nil]
    rw [iterStep_some fold matchOn fd (wordsOf (trimStr query)) key [] a s
      ra ha]
    rw [iterStep_some fold matchOn fd (wordsOf (trimStr query)) key _ b s
      rb hb]
    rw [hkey]
    simp [upsert]
  have hout : iterFilterScored fold query [a, b] key ascending 0 0 matchOn
      fd = [(b, s, rb)] := by
    unfold iterFilterScored
    dsimp only
    rw [hbld]
    cases ascending <;>
      simp [pySorted, sortLe, insertLe, lookupA, postProcess]
  refine ⟨hout, ?_⟩
  intro s' r' hmem
  rw [hout] at hmem
  have := List.mem_singleton.1 hmem
  exact hab (congrArg Prod.fst this)

/-- C9 witness: the items `"Foo"` and `"FOO"` both score 99 on the query
`"foo"` with the same lower-cased key `"foo"`; only `"FOO"` survives. -/
theorem equal_key_last_wins_witness :
    ("Foo" : String) ≠ "FOO" ∧
    itemResult (fun s => s) MATCH_ALL true (wordsOf (trimStr "foo"))
      (trimStr "Foo") = some ((99 : ℚ), some MATCH_STARTSWITH) ∧
    iterFilterScored (fun s => s) "foo" ["Foo", "FOO"] (fun s => s) false 0
      0 MATCH_ALL true = [("FOO", (99 : ℚ), some MATCH_STARTSWITH)] := by
  refine ⟨by decide, by with_unfolding_all rfl, ?_⟩
  exact (equal_key_last_wins (fun s => s) "foo" (fun s => s) false
    MATCH_ALL true "Foo" "FOO" 99 (some MATCH_STARTSWITH)
    (some MATCH_STARTSWITH) (by decide) (by with_unfolding_all rfl)
    (by with_unfolding_all rfl) (by decide)).1

/-! ## Claim C3 — max_results before min_score -/

/-- C3 (amended): `IterFilter.filter` truncates to `max_results` FIRST and
applies the strict `min_score` filter afterwards (src/src/search.py lines
313-317): with both options set the output is the min_score filter (strict
greater-than, so a score equal to `min_score` is excluded and
`min_score + 0.01` is included) of the first `max_results` sorted results
— not the first `max_results` of the min_score-filtered list. -/
theorem truncate_then_min_score :
    (∀ (α : Type) (rs : List (α × ℚ × Option Nat)) (maxResults : Nat)
      (minScore : ℚ), maxResults ≠ 0 → minScore ≠ 0 →
      postProcess maxResults minScore rs =
        (rs.take maxResults).filter (fun r => decide (minScore < r.2.1))) ∧
    (∀ (α : Type) (x : α),
      postProcess 0 50 [(x, (50 : ℚ), (none : Option Nat))] = [] ∧
      postProcess 0 50 [(x, (50 + 1/100 : ℚ), (none : Option Nat))] =
        [(x, (50 + 1/100 : ℚ), none)]) := by
  constructor
  · intro α rs maxResults minScore h1 h2
    unfold postProcess
    dsimp only
    rw [if_pos h2]
    by_cases hc : rs.length > maxResults
    · rw [if_pos ⟨h1, hc⟩]
    · rw [if_neg (by tauto)]
      rw [List.take_of_length_le (Nat.le_of_not_lt hc)]
  · intro α x
    constructor
    · have hd : (decide ((50 : ℚ) < ((x, (50 : ℚ),
          (none : Option Nat))).2.1)) = false := by
        simp
      simp [postProcess, hd]
    · have hd : (decide ((50 : ℚ) < ((x, (50 + 1/100 : ℚ),
          (none : Option Nat))).2.1)) = true := by
        simp only [decide_eq_true_eq]
        norm_num
      simp [postProcess, hd]

/-- C3 witness: the amended order applied at a concrete list where the two
orders differ — `[(40), (55), (98)]` sorted worst-first with
`max_results = 1`, `min_score = 50` keeps nothing. -/
theorem truncate_then_min_score_witness :
    (1 : Nat) ≠ 0 ∧ (50 : ℚ) ≠ 0 ∧
    postProcess 1 50 [(("a" : String), (40 : ℚ), (none : Option Nat)),
      ("b", 55, none), ("c", 98, none)] =
      (([(("a" : String), (40 : ℚ), (none : Option Nat)), ("b", 55, none),
        ("c", 98, none)]).take 1).filter
        (fun r => decide ((50 : ℚ) < r.2.1)) ∧
    postProcess 0 50 [(("a" : String), (50 : ℚ), (none : Option Nat))] = [] :=
  ⟨one_ne_zero, by norm_num,
   truncate_then_min_score.1 String
     [("a", 40, none), ("b", 55, none), ("c", 98, none)] 1 50 one_ne_zero
     (by norm_num),
   (truncate_then_min_score.2 String "a").1⟩

/-- C3 counterexample: with `ascending=True` (worst first),
`min_score = 97.5`, `max_results = 1` over items `["ab", "abb"]`
(scores 98 and 97), the code returns `[]` — truncation kept only the
97-scored result and the min_score filter then removed it — while the
claimed min-score-first order would return the 98-scored result. -/
theorem c3_truncation_first_differs :
    iterFilterScored (fun s => s) "a" ["ab", "abb"] (fun s => s) true
      (195/2 : ℚ) 1 MATCH_ALL true = [] ∧
    iterFilterSpecOrder (fun s => s) "a" ["ab", "abb"] (fun s => s) true
      (195/2 : ℚ) 1 MATCH_ALL true =
      [("ab", (98 : ℚ), some MATCH_STARTSWITH)] ∧
    ([] : List (String × ℚ × Option Nat)) ≠
      [("ab", (98 : ℚ), some MATCH_STARTSWITH)] := by
  refine ⟨?_, ?_, by simp⟩
  · with_unfolding_all rfl
  · with_unfolding_all rfl

/-! ## Claim C2 — cross-strategy merge -/

theorem foldl_upsert_lookup (rows : List (Nat × ℚ × String × Nat)) :
    ∀ (m : List ((ℚ × Nat) × (String × ℚ × Nat))) (k : ℚ × Nat),
    lookupA (rows.foldl (fun m r => upsert m (r.2.1, r.1)
      (r.2.2.1, r.2.1 * 1000, r.2.2.2)) m) k =
    rows.foldl (fun acc r => if (r.2.1, r.1) = k then
      some (r.2.2.1, r.2.1 * 1000, r.2.2.2) else acc) (lookupA m k) := by
  induction rows with
  | nil => intro m k; rfl
  | cons r rs ih =>
    intro m k
    rw [List.foldl_cons, List.foldl_cons, ih]
    congr 1
    by_cases hk : (r.2.1, r.1) = k
    · rw [if_pos hk, ← hk]
      exact lookupA_upsert_self m (r.2.1, r.1) _
    · rw [if_neg hk]
      exact lookupA_upsert_ne m (r.2.1, r.1) k _ (fun hc => hk hc.symm)

/-- C2 (amended): the indexed engine merges rows by the PAIR `(score, id)`
— not by id alone — and when several strategies produce the same
`(score, id)` the binding left in the dict is that of the LAST-seen row in
evaluation order (SUBSTRING, then STARTSWITH, then ATOM); the same id with
two different scores yields two separate entries. -/
theorem merge_keyed_by_score_id_last_wins
    (rows : List (Nat × ℚ × String × Nat)) (k : ℚ × Nat) :
    lookupA (mergeRows rows) k = lastWrite rows k :=
  foldl_upsert_lookup rows [] k

/-- C2 counterexample: the provider returns the same row (id 7, score 3)
for both the SUBSTRING query `"kant*"` and the STARTSWITH query `"^kant"`;
the merged output carries the STARTSWITH flag — the LAST-seen strategy —
not the first-seen SUBSTRING flag the claim requires. -/
theorem c2_merge_keeps_last_not_first :
    ftsFilterScored
      (fun q => if q = "kant*" then [(7, (3 : ℚ), "x")]
        else if q = "^kant" then [(7, (3 : ℚ), "x")] else [])
      "kant" true 0 MATCH_ALL =
      [("x", (3000 : ℚ), MATCH_STARTSWITH)] ∧
    MATCH_STARTSWITH ≠ MATCH_SUBSTRING := by
  refine ⟨?_, by decide⟩
  with_unfolding_all rfl

/-! ## Claim C10 — sense of the `ascending` flags -/

theorem char_eq_of_toNat_eq {a b : Char} (h : a.toNat = b.toNat) : a = b :=
  Char.eq_of_val_eq (UInt32.eq_of_toBitVec_eq (BitVec.eq_of_toNat_eq h))

theorem strLtB_trans : ∀ x y z : List Char, strLtB x y = true →
    strLtB y z = true → strLtB x z = true := by
  intro x
  induction x with
  | nil =>
    intro y z hxy hyz
    cases y with
    | nil => simp [strLtB] at hxy
    | cons b bs =>
      cases z with
      | nil => simp [strLtB] at hyz
      | cons c cs => simp [strLtB]
  | cons a as ih =>
    intro y z hxy hyz
    cases y with
    | nil => simp [strLtB] at hxy
    | cons b bs =>
      cases z with
      | nil => simp [strLtB] at hyz
      | cons c cs =>
        simp only [strLtB] at hxy hyz ⊢
        by_cases h1 : a.toNat < b.toNat
        · by_cases h2 : b.toNat < c.toNat
          · rw [if_pos (show a.toNat < c.toNat by omega)]
          · rw [if_neg h2] at hyz
            by_cases h3 : c.toNat < b.toNat
            · rw [if_pos h3] at hyz
              exact absurd hyz (by simp)
            · rw [if_neg h3] at hyz
              rw [if_pos (show a.toNat < c.toNat by omega)]
        · rw [if_neg h1] at hxy
          by_cases h4 : b.toNat < a.toNat
          · rw [if_pos h4] at hxy
            exact absurd hxy (by simp)
          · rw [if_neg h4] at hxy
            by_cases h2 : b.toNat < c.toNat
            · rw [if_pos (show a.toNat < c.toNat by omega)]
            · rw [if_neg h2] at hyz
              by_cases h3 : c.toNat < b.toNat
              · rw [if_pos h3] at hyz
                exact absurd hyz (by simp)
              · rw [if_neg h3] at hyz
                rw [if_neg (show ¬ a.toNat < c.toNat by omega),
                  if_neg (show ¬ c.toNat < a.toNat by omega)]
                exact ih bs cs hxy hyz

theorem strLtB_eq_of_not_lt : ∀ x y : List Char, strLtB x y = false →
    strLtB y x = false → x = y := by
  intro x
  induction x with
  | nil =>
    intro y hxy _
    cases y with
    | nil => rfl
    | cons b bs => simp [strLtB] at hxy
  | cons a as ih =>
    intro y hxy hyx
    cases y with
    | nil => simp [strLtB] at hyx
    | cons b bs =>
      simp only [strLtB] at hxy hyx
      by_cases h1 : a.toNat < b.toNat
      · rw [if_pos h1] at hxy
        exact absurd hxy (by simp)
      · by_cases h2 : b.toNat < a.toNat
        · rw [if_pos h2] at hyx
          exact absurd hyx (by simp)
        · rw [if_neg h1, if_neg h2] at hxy
          rw [if_neg h2, if_neg h1] at hyx
          have hab : a = b := char_eq_of_toNat_eq (by omega)
          rw [hab, ih bs hxy hyx]

theorem string_eq_of_data_eq {s t : String} (h : s.data = t.data) : s = t :=
  String.ext h

theorem sKeyLeB_total (a b : ℚ × String × ℚ) :
    sKeyLeB a b = true ∨ sKeyLeB b a = true := by
  simp only [sKeyLeB, decide_eq_true_eq]
  unfold sKeyLe
  rcases lt_trichotomy a.1 b.1 with h | h | h
  · exact Or.inl (Or.inl h)
  · by_cases hs : strLtB a.2.1.data b.2.1.data = true
    · exact Or.inl (Or.inr ⟨h, Or.inl hs⟩)
    · by_cases hs2 : strLtB b.2.1.data a.2.1.data = true
      · exact Or.inr (Or.inr ⟨h.symm, Or.inl hs2⟩)
      · have heq : a.2.1 = b.2.1 :=
          string_eq_of_data_eq (strLtB_eq_of_not_lt _ _
            (Bool.eq_false_iff.mpr hs) (Bool.eq_false_iff.mpr hs2))
        rcases le_total a.2.2 b.2.2 with h2 | h2
        · exact Or.inl (Or.inr ⟨h, Or.inr ⟨heq, h2⟩⟩)
        · exact Or.inr (Or.inr ⟨h.symm, Or.inr ⟨heq.symm, h2⟩⟩)
  · exact Or.inr (Or.inl h)

theorem sKeyLeB_trans (a b c : ℚ × String × ℚ) (h1 : sKeyLeB a b = true)
    (h2 : sKeyLeB b c = true) : sKeyLeB a c = true := by
  simp only [sKeyLeB, decide_eq_true_eq] at h1 h2 ⊢
  unfold sKeyLe at h1 h2 ⊢
  rcases h1 with h1 | ⟨h1e, h1s⟩
  · rcases h2 with h2 | ⟨h2e, _⟩
    · exact Or.inl (lt_trans h1 h2)
    · exact Or.inl (h2e ▸ h1)
  · rcases h2 with h2 | ⟨h2e, h2s⟩
    · exact Or.inl (h1e ▸ h2)
    · refine Or.inr ⟨h1e.trans h2e, ?_⟩
      rcases h1s with hs1 | ⟨he1, hl1⟩
      · rcases h2s with hs2 | ⟨he2, _⟩
        · exact Or.inl (strLtB_trans _ _ _ hs1 hs2)
        · exact Or.inl (he2 ▸ hs1)
      · rcases h2s with hs2 | ⟨he2, hl2⟩
        · refine Or.inl ?_
          rw [he1]
          exact hs2
        · exact Or.inr ⟨he1.trans he2, le_trans hl1 hl2⟩

theorem fKeyLeB_total (a b : ℚ × Nat) :
    fKeyLeB a b = true ∨ fKeyLeB b a = true := by
  simp only [fKeyLeB, decide_eq_true_eq]
  unfold fKeyLe
  rcases lt_trichotomy a.1 b.1 with h | h | h
  · exact Or.inl (Or.inl h)
  · rcases le_total a.2 b.2 with h2 | h2
    · exact Or.inl (Or.inr ⟨h, h2⟩)
    · exact Or.inr (Or.inr ⟨h.symm, h2⟩)
  · exact Or.inr (Or.inl h)

theorem fKeyLeB_trans (a b c : ℚ × Nat) (h1 : fKeyLeB a b = true)
    (h2 : fKeyLeB b c = true) : fKeyLeB a c = true := by
  simp only [fKeyLeB, decide_eq_true_eq] at h1 h2 ⊢
  unfold fKeyLe at h1 h2 ⊢
  rcases h1 with h1 | ⟨h1e, h1l⟩
  · rcases h2 with h2 | ⟨h2e, _⟩
    · exact Or.inl (lt_trans h1 h2)
    · exact Or.inl (h2e ▸ h1)
  · rcases h2 with h2 | ⟨h2e, h2l⟩
    · exact Or.inl (h1e ▸ h2)
    · exact Or.inr ⟨h1e.trans h2e, le_trans h1l h2l⟩

theorem fKeyLe_fst_le (a b : ℚ × Nat) (h : fKeyLeB a b = true) :
    a.1 ≤ b.1 := by
  simp only [fKeyLeB, decide_eq_true_eq] at h
  rcases h with h | ⟨h, _⟩
  · exact le_of_lt h
  · exact le_of_eq h

theorem sKeyLe_fst_le (a b : ℚ × String × ℚ) (h : sKeyLeB a b = true) :
    a.1 ≤ b.1 := by
  simp only [sKeyLeB, decide_eq_true_eq] at h
  rcases h with h | ⟨h, _⟩
  · exact le_of_lt h
  · exact le_of_eq h

theorem pairwise_pySorted_false {K : Type} (le : K → K → Bool)
    (htot : ∀ a b, le a b = true ∨ le b a = true)
    (htr : ∀ a b c, le a b = true → le b c = true → le a c = true)
    (ks : List K) :
    (pySorted le false ks).Pairwise (fun a b => le a b = true) := by
  unfold pySorted
  rw [if_neg Bool.false_ne_true]
  exact pairwise_sortLe le htot htr ks

theorem pairwise_pySorted_true {K : Type} (le : K → K → Bool)
    (htot : ∀ a b, le a b = true ∨ le b a = true)
    (htr : ∀ a b c, le a b = true → le b c = true → le a c = true)
    (ks : List K) :
    (pySorted le true ks).Pairwise (fun a b => le b a = true) := by
  unfold pySorted
  rw [if_pos rfl]
  exact pairwise_sortLe (fun a b => le b a) (fun a b => htot b a)
    (fun a b c h1 h2 => htr c b a h2 h1) ks

theorem mergeRows_score_key : ∀ (rows : List (Nat × ℚ × String × Nat))
    (m : List ((ℚ × Nat) × (String × ℚ × Nat))),
    (∀ e ∈ m, e.2.2.1 = e.1.1 * 1000) →
    ∀ e ∈ rows.foldl (fun m r => upsert m (r.2.1, r.1)
      (r.2.2.1, r.2.1 * 1000, r.2.2.2)) m, e.2.2.1 = e.1.1 * 1000 := by
  intro rows
  induction rows with
  | nil => intro m hm e he; exact hm e he
  | cons r rs ih =>
    intro m hm e he
    rw [List.foldl_cons] at he
    refine ih _ ?_ e he
    intro e' he'
    rcases mem_upsert he' with h' | h'
    · rw [h']
    · exact hm e' h'

theorem mem_mergeRows_score (rows : List (Nat × ℚ × String × Nat))
    (e : (ℚ × Nat) × (String × ℚ × Nat)) (he : e ∈ mergeRows rows) :
    e.2.2.1 = e.1.1 * 1000 :=
  mergeRows_score_key rows [] (by simp) e he

theorem postProcess_sublist {α : Type} (mr : Nat) (ms : ℚ)
    (rs : List (α × ℚ × Option Nat)) : (postProcess mr ms rs).Sublist rs := by
  unfold postProcess
  dsimp only
  by_cases hm : ms ≠ 0
  · rw [if_pos hm]
    refine (List.filter_sublist _).trans ?_
    by_cases hc : mr ≠ 0 ∧ rs.length > mr
    · rw [if_pos hc]
      exact List.take_sublist _ _
    · rw [if_neg hc]
  · rw [if_neg hm]
    by_cases hc : mr ≠ 0 ∧ rs.length > mr
    · rw [if_pos hc]
      exact List.take_sublist _ _
    · rw [if_neg hc]

/-- C10: the two `ascending` flags have inverse senses.  The indexed
engine's `filter` with its default `ascending=True` sorts the `(score, id)`
keys in DESCENDING order (output scores non-increasing) and with
`ascending=False` in ascending order; the rule-based matcher with its
default `ascending=False` sorts its keys `(100/score, value.lower(),
score)` ASCENDING, which is best-first: output scores non-increasing. -/
theorem ascending_flag_sense :
    (∀ (provider : String → List (Nat × ℚ × String)) (query : String)
      (maxResults matchOn : Nat),
      ((ftsFilterScored provider query true maxResults matchOn).map
        (·.2.1)).Pairwise (· ≥ ·)) ∧
    (∀ (provider : String → List (Nat × ℚ × String)) (query : String)
      (maxResults matchOn : Nat),
      ((ftsFilterScored provider query false maxResults matchOn).map
        (·.2.1)).Pairwise (· ≤ ·)) ∧
    (∀ (α : Type) (fold : String → String) (query : String) (data : List α)
      (key : α → String) (minScore : ℚ) (maxResults matchOn : Nat)
      (fd : Bool),
      ((iterFilterScored fold query data key false minScore maxResults
        matchOn fd).map (·.2.1)).Pairwise (· ≥ ·)) := by
  refine ⟨?_, ?_, ?_⟩
  · intro provider query maxResults matchOn
    unfold ftsFilterScored
    dsimp only
    rw [List.pairwise_map]
    have hres : ((pySorted fKeyLeB true
        ((mergeRows (taggedRows provider query matchOn)).map (·.1))).filterMap
        (lookupA (mergeRows (taggedRows provider query matchOn)))).Pairwise
        (fun v1 v2 => v1.2.1 ≥ v2.2.1) := by
      refine pairwise_filterMap_rel _ (fun k1 k2 => fKeyLeB k2 k1 = true) _
        ?_ _ (pairwise_pySorted_true fKeyLeB fKeyLeB_total fKeyLeB_trans _)
      intro k1 k2 v1 v2 hR hg1 hg2
      have hm1 := mem_mergeRows_score _ _ (lookupA_mem hg1)
      have hm2 := mem_mergeRows_score _ _ (lookupA_mem hg2)
      have hk := fKeyLe_fst_le k2 k1 hR
      have hm1' : v1.2.1 = k1.1 * 1000 := hm1
      have hm2' : v2.2.1 = k2.1 * 1000 := hm2
      show v2.2.1 ≤ v1.2.1
      rw [hm1', hm2']
      exact mul_le_mul_of_nonneg_right hk (by norm_num)
    by_cases hc : maxResults ≠ 0 ∧
        ((pySorted fKeyLeB true
          ((mergeRows (taggedRows provider query matchOn)).map
            (·.1))).filterMap
          (lookupA (mergeRows (taggedRows provider query
            matchOn)))).length > maxResults
    · rw [if_pos hc]
      exact List.Pairwise.sublist (List.take_sublist _ _) hres
    · rw [if_neg hc]
      exact hres
  · intro provider query maxResults matchOn
    unfold ftsFilterScored
    dsimp only
    rw [List.pairwise_map]
    have hres : ((pySorted fKeyLeB false
        ((mergeRows (taggedRows provider query matchOn)).map (·.1))).filterMap
        (lookupA (mergeRows (taggedRows provider query matchOn)))).Pairwise
        (fun v1 v2 => v1.2.1 ≤ v2.2.1) := by
      refine pairwise_filterMap_rel _ (fun k1 k2 => fKeyLeB k1 k2 = true) _
        ?_ _ (pairwise_pySorted_false fKeyLeB fKeyLeB_total fKeyLeB_trans _)
      intro k1 k2 v1 v2 hR hg1 hg2
      have hm1 := mem_mergeRows_score _ _ (lookupA_mem hg1)
      have hm2 := mem_mergeRows_score _ _ (lookupA_mem hg2)
      have hk := fKeyLe_fst_le k1 k2 hR
      have hm1' : v1.2.1 = k1.1 * 1000 := hm1
      have hm2' : v2.2.1 = k2.1 * 1000 := hm2
      show v1.2.1 ≤ v2.2.1
      rw [hm1', hm2']
      exact mul_le_mul_of_nonneg_right hk (by norm_num)
    by_cases hc : maxResults ≠ 0 ∧
        ((pySorted fKeyLeB false
          ((mergeRows (taggedRows provider query matchOn)).map
            (·.1))).filterMap
          (lookupA (mergeRows (taggedRows provider query
            matchOn)))).length > maxResults
    · rw [if_pos hc]
      exact List.Pairwise.sublist (List.take_sublist _ _) hres
    · rw [if_neg hc]
      exact hres
  · intro α fold query data key minScore maxResults matchOn fd
    unfold iterFilterScored
    dsimp only
    rw [List.pairwise_map]
    have hres : ((pySorted sKeyLeB false
        ((buildResults fold matchOn fd (wordsOf (trimStr query)) key
          data).map (·.1))).filterMap
        (lookupA (buildResults fold matchOn fd (wordsOf (trimStr query)) key
          data))).Pairwise (fun v1 v2 => v1.2.1 ≥ v2.2.1) := by
      refine pairwise_filterMap_rel _ (fun k1 k2 => sKeyLeB k1 k2 = true) _
        ?_ _ (pairwise_pySorted_false sKeyLeB sKeyLeB_total sKeyLeB_trans _)
      intro k1 k2 v1 v2 hR hg1 hg2
      have h1 := mem_buildResults fold matchOn fd (wordsOf (trimStr query))
        key data _ (lookupA_mem hg1)
      have h2 := mem_buildResults fold matchOn fd (wordsOf (trimStr query))
        key data _ (lookupA_mem hg2)
      have hp1 : 0 < v1.2.1 :=
        (itemResult_pos fold matchOn fd (wordsOf (trimStr query)) _ _ _
          h1.1).1
      have hp2 : 0 < v2.2.1 :=
        (itemResult_pos fold matchOn fd (wordsOf (trimStr query)) _ _ _
          h2.1).1
      have hk := sKeyLe_fst_le k1 k2 hR
      have ha : k1.1 = 100 / v1.2.1 := congrArg Prod.fst h1.2
      have hb : k2.1 = 100 / v2.2.1 := congrArg Prod.fst h2.2
      rw [ha, hb, div_le_div_iff₀ hp1 hp2] at hk
      exact le_of_mul_le_mul_left hk (by norm_num : (0 : ℚ) < 100)
    exact List.Pairwise.sublist (postProcess_sublist _ _ _) hres
